import Mathlib

/-!
# Verification of the aether-player local library scanner

A shallow embedding of `src-tauri/src/providers/local.rs`: the metadata
extraction policy (`parse_metadata`, `split_artists`), the cover art store
(`save_cover_art`), the artist/album resolver (`resolve_artist_single`,
`resolve_album`), the batched catalog writer (`flush_tracks`, `flush_found`)
and the scan orchestration (`scan_path`, `scan`).

The SQLite catalog is modelled as lists of rows; `uuid::Uuid::new_v4()` is
modelled as a fresh-name supply threaded through the state; the parallel
`jwalk` walk plus the single consumer task are modelled by processing the
walk's classified results sequentially in walk order (the consumer is the
only writer, and the bounded channel delivers every message, so the final
catalog state is the one computed here).  Database errors cannot occur in
the pure model, so the code's log-and-continue branches for them are dead
here and noted where they are elided.
-/

namespace Aether

/-! ## String primitives

The Rust code uses `str::trim`, `str::replace`, `str::split`,
`to_lowercase`, and SQLite compares artist names with COLLATE NOCASE
(ASCII-only case folding).  These are re-implemented as structurally
recursive, kernel-evaluable functions over `List Char`; whitespace and
case folding are restricted to ASCII, which covers every string the
claims mention.
-/

def isWsChar (c : Char) : Bool :=
  c == ' ' || c == '\t' || c == '\n' || c == '\r'

def trimL (l : List Char) : List Char :=
  ((l.dropWhile isWsChar).reverse.dropWhile isWsChar).reverse

/-- Rust `str::trim`. -/
def strTrim (s : String) : String := ⟨trimL s.data⟩

def asciiLowerChar (c : Char) : Char :=
  if 65 ≤ c.toNat ∧ c.toNat ≤ 90 then Char.ofNat (c.toNat + 32) else c

/-- Rust `str::to_lowercase` (ASCII fragment). -/
def asciiLower (s : String) : String := ⟨s.data.map asciiLowerChar⟩

/-- SQLite `COLLATE NOCASE` equality: ASCII-only case folding. -/
def nocaseEq (a b : String) : Bool :=
  a.data.map asciiLowerChar == b.data.map asciiLowerChar

def replaceFuel (pat rep : List Char) : Nat → List Char → List Char
  | 0, l => l
  | _ + 1, [] => []
  | fuel + 1, c :: cs =>
    if pat.isPrefixOf (c :: cs) then
      rep ++ replaceFuel pat rep fuel ((c :: cs).drop pat.length)
    else
      c :: replaceFuel pat rep fuel cs

/-- Rust `str::replace`: replace every (leftmost, non-overlapping)
occurrence of `pat` by `rep`.  The fuel `s.data.length` suffices because
each step consumes at least one character of a non-empty pattern. -/
def strReplace (s pat rep : String) : String :=
  ⟨replaceFuel pat.data rep.data s.data.length s.data⟩

def splitCharAux (sep : Char) : List Char → List Char → List (List Char)
  | [], acc => [acc.reverse]
  | c :: cs, acc =>
    if c == sep then acc.reverse :: splitCharAux sep cs []
    else splitCharAux sep cs (c :: acc)

/-- Rust `str::split` with a `char` pattern (empty pieces are kept). -/
def strSplitChar (s : String) (sep : Char) : List String :=
  (splitCharAux sep s.data []).map (fun l => ⟨l⟩)

def splitStrFuel (sep : List Char) : Nat → List Char → List Char → List (List Char)
  | 0, l, acc => [acc.reverse ++ l]
  | _ + 1, [], acc => [acc.reverse]
  | fuel + 1, c :: cs, acc =>
    if sep.isPrefixOf (c :: cs) then
      acc.reverse :: splitStrFuel sep fuel ((c :: cs).drop sep.length) []
    else splitStrFuel sep fuel cs (c :: acc)

/-- Rust `str::split` with a `&str` pattern (empty pieces are kept). -/
def strSplitOn (s sep : String) : List String :=
  (splitStrFuel sep.data (s.data.length + 1) s.data []).map (fun l => ⟨l⟩)

/-! ## SHA-256

`save_cover_art` hashes with `sha2::Sha256` and formats the digest with
`format!("{:x}", ...)`.  A full executable SHA-256 over byte lists, 32-bit
words as `Nat` reduced mod `2^32`.
-/

def w32 (n : Nat) : Nat := n % 4294967296

def rotr32 (n x : Nat) : Nat := w32 ((x >>> n) ||| (x <<< (32 - n)))

structure Sha8 where
  a : Nat
  b : Nat
  c : Nat
  d : Nat
  e : Nat
  f : Nat
  g : Nat
  h : Nat
  deriving DecidableEq, Repr

def shaCh (e f g : Nat) : Nat := (e &&& f) ^^^ ((e ^^^ 4294967295) &&& g)

def shaMaj (a b c : Nat) : Nat := (a &&& b) ^^^ (a &&& c) ^^^ (b &&& c)

def shaS0 (a : Nat) : Nat := rotr32 2 a ^^^ rotr32 13 a ^^^ rotr32 22 a

def shaS1 (e : Nat) : Nat := rotr32 6 e ^^^ rotr32 11 e ^^^ rotr32 25 e

def shasig0 (x : Nat) : Nat := rotr32 7 x ^^^ rotr32 18 x ^^^ (x >>> 3)

def shasig1 (x : Nat) : Nat := rotr32 17 x ^^^ rotr32 19 x ^^^ (x >>> 10)

def shaK : List Nat :=
  [1116352408, 1899447441, 3049323471, 3921009573, 961987163, 1508970993,
   2453635748, 2870763221, 3624381080, 310598401, 607225278, 1426881987,
   1925078388, 2162078206, 2614888103, 3248222580, 3835390401, 4022224774,
   264347078, 604807628, 770255983, 1249150122, 1555081692, 1996064986,
   2554220882, 2821834349, 2952996808, 3210313671, 3336571891, 3584528711,
   113926993, 338241895, 666307205, 773529912, 1294757372, 1396182291,
   1695183700, 1986661051, 2177026350, 2456956037, 2730485921, 2820302411,
   3259730800, 3345764771, 3516065817, 3600352804, 4094571909, 275423344,
   430227734, 506948616, 659060556, 883997877, 958139571, 1322822218,
   1537002063, 1747873779, 1955562222, 2024104815, 2227730452, 2361852424,
   2428436474, 2756734187, 3204031479, 3329325298]

def shaInit : Sha8 :=
  ⟨1779033703, 3144134277, 1013904242, 2773480762,
   1359893119, 2600822924, 528734635, 1541459225⟩

def shaExtendStep (w : List Nat) : List Nat :=
  let n := w.length
  w ++ [w32 (shasig1 (w.getD (n - 2) 0) + w.getD (n - 7) 0 +
             shasig0 (w.getD (n - 15) 0) + w.getD (n - 16) 0)]

def shaSchedule (block : List Nat) : List Nat :=
  (List.range 48).foldl (fun acc _ => shaExtendStep acc) block

def shaRound (st : Sha8) (kw : Nat × Nat) : Sha8 :=
  let t1 := w32 (st.h + shaS1 st.e + shaCh st.e st.f st.g + kw.1 + kw.2)
  let t2 := w32 (shaS0 st.a + shaMaj st.a st.b st.c)
  ⟨w32 (t1 + t2), st.a, st.b, st.c, w32 (st.d + t1), st.e, st.f, st.g⟩

def shaBlock (st : Sha8) (block : List Nat) : Sha8 :=
  let r := (shaK.zip (shaSchedule block)).foldl shaRound st
  ⟨w32 (st.a + r.a), w32 (st.b + r.b), w32 (st.c + r.c), w32 (st.d + r.d),
   w32 (st.e + r.e), w32 (st.f + r.f), w32 (st.g + r.g), w32 (st.h + r.h)⟩

def beWords : List Nat → List Nat
  | b0 :: b1 :: b2 :: b3 :: rest => (((b0 * 256 + b1) * 256 + b2) * 256 + b3) :: beWords rest
  | _ => []

def chunksOf64 : Nat → List Nat → List (List Nat)
  | 0, _ => []
  | _ + 1, [] => []
  | fuel + 1, l => l.take 64 :: chunksOf64 fuel (l.drop 64)

def be64Bytes (n : Nat) : List Nat :=
  [(n >>> 56) % 256, (n >>> 48) % 256, (n >>> 40) % 256, (n >>> 32) % 256,
   (n >>> 24) % 256, (n >>> 16) % 256, (n >>> 8) % 256, n % 256]

def shaPad (msg : List Nat) : List Nat :=
  msg ++ [128] ++ List.replicate ((119 - msg.length % 64) % 64) 0 ++ be64Bytes (8 * msg.length)

def sha256Words (msg : List Nat) : Sha8 :=
  ((chunksOf64 (shaPad msg).length (shaPad msg)).map beWords).foldl shaBlock shaInit

def hexDigitChar (n : Nat) : Char :=
  if n < 10 then Char.ofNat (48 + n) else Char.ofNat (87 + n)

def wordHex (x : Nat) : List Char :=
  [hexDigitChar ((x >>> 28) % 16), hexDigitChar ((x >>> 24) % 16),
   hexDigitChar ((x >>> 20) % 16), hexDigitChar ((x >>> 16) % 16),
   hexDigitChar ((x >>> 12) % 16), hexDigitChar ((x >>> 8) % 16),
   hexDigitChar ((x >>> 4) % 16), hexDigitChar (x % 16)]

/-- Lowercase hex digest of the SHA-256 of a byte sequence, as produced by
`format!("{:x}", hasher.finalize())`. -/
def sha256hex (msg : List Nat) : String :=
  let s := sha256Words msg
  ⟨wordHex s.a ++ wordHex s.b ++ wordHex s.c ++ wordHex s.d ++
   wordHex s.e ++ wordHex s.f ++ wordHex s.g ++ wordHex s.h⟩

/-! ## Metadata extraction (local.rs lines 590-723)

`parse_metadata` reads a file with lofty and then applies a pure policy to
the decoded tag.  The lofty decode is external I/O, so an `FsFile` carries
its outputs: the audio properties, and the chosen tag
(`primary_tag().or(first_tag())`, already collapsed to one `Option`).
`content = none` models a `read_from_path` failure (corrupt/unsupported
file). -/

structure CoverImageData where
  data : List Nat
  mimeType : String
  deriving DecidableEq, Repr

structure PictureData where
  isFrontCover : Bool
  data : List Nat
  mimeType : Option String
  deriving DecidableEq, Repr

structure TagData where
  title : Option String := none
  artist : Option String := none
  album : Option String := none
  track : Option Nat := none
  disk : Option Nat := none
  year : Option Nat := none
  genre : Option String := none
  albumArtist : Option String := none
  pictures : List PictureData := []
  deriving DecidableEq, Repr

structure AudioContent where
  durationSecs : Nat
  audioBitrate : Option Nat
  tag : Option TagData
  deriving DecidableEq, Repr

structure FsFile where
  path : String
  /-- `path.file_stem()` (OS path API, carried alongside the path). -/
  stem : String
  /-- `path.extension()` (OS path API, carried alongside the path). -/
  ext : Option String
  mtime : Int
  content : Option AudioContent
  deriving DecidableEq, Repr

structure ParsedMetadata where
  title : String
  artists : List String
  albumArtist : Option String
  album : String
  duration : Nat
  trackNumber : Option Nat
  discNumber : Option Nat
  year : Option Nat
  genre : Option String
  bitrate : Option Nat
  coverImage : Option CoverImageData
  deriving DecidableEq, Repr

/-- local.rs `split_artists` (lines 609-621). -/
def split_artists (raw : String) : List String :=
  let r1 := strReplace raw " feat. " ";"
  let r2 := strReplace r1 " ft. " ";"
  let r3 := strReplace r2 " & " ";"
  let r4 := strReplace r3 " / " ";"
  let r5 := strReplace r4 ", " ";"
  ((strSplitChar r5 ';').map strTrim).filter (fun s => !(s == ""))

/-- The tag-processing stage of `parse_metadata` (lines 629-692): start
from the defaults (title = filename stem, sentinel artist and album) and
take each field from the chosen tag when it is present and nonblank. -/
def applyTag (stem : String) (c : AudioContent) : ParsedMetadata :=
  let base : ParsedMetadata :=
    { title := stem
      artists := ["Unknown Artist"]
      albumArtist := none
      album := "Unknown Album"
      duration := c.durationSecs % 4294967296
      trackNumber := none
      discNumber := none
      year := none
      genre := none
      bitrate := c.audioBitrate
      coverImage := none }
  match c.tag with
  | none => base
  | some tag =>
    { base with
      title := match tag.title with
        | some t => if strTrim t == "" then stem else strTrim t
        | none => stem
      artists := match tag.artist with
        | some a => if strTrim a == "" then ["Unknown Artist"] else split_artists a
        | none => ["Unknown Artist"]
      album := match tag.album with
        | some a => if strTrim a == "" then "Unknown Album" else strTrim a
        | none => "Unknown Album"
      trackNumber := tag.track
      discNumber := tag.disk
      year := tag.year.map (fun y => y % 65536)
      genre := match tag.genre with
        | some g => if strTrim g == "" then none else some (strTrim g)
        | none => none
      albumArtist := match tag.albumArtist with
        | some aa => if strTrim aa == "" then none else some (strTrim aa)
        | none => none
      coverImage :=
        if tag.pictures.isEmpty then none
        else
          match (tag.pictures.find? (fun p => p.isFrontCover)).or tag.pictures.head? with
          | some p => some ⟨p.data, p.mimeType.getD "image/jpeg"⟩
          | none => none }

/-- The filename-inference stage of `parse_metadata` (lines 694-708):
when the artist list is still exactly the sentinel, split the stem on
" - " into artist/album/title (three fragments) or artist/title (two). -/
def filenameFallback (stem : String) (m : ParsedMetadata) : ParsedMetadata :=
  if m.artists == ["Unknown Artist"] then
    match strSplitOn stem " - " with
    | [p0, p1, p2] => { m with artists := split_artists p0, album := strTrim p1, title := strTrim p2 }
    | [p0, p1] => { m with artists := split_artists p0, title := strTrim p1 }
    | _ => m
  else m

/-- local.rs `parse_metadata` (lines 623-723): the lofty read (external
I/O, `none` on failure), the tag-processing stage, then the
filename-inference stage. -/
def parse_metadata (f : FsFile) : Option ParsedMetadata :=
  match f.content with
  | none => none
  | some c => some (filenameFallback f.stem (applyTag f.stem c))

/-! ## Cover art store (local.rs lines 571-588)

The covers directory is a flat map from filename to file bytes, kept in
insertion order; `Path::exists` and `fs::write` act on it. -/

abbrev CoverStore := List (String × List Nat)

/-- The extension chosen from the mime type in `save_cover_art`
(lines 572-578); unknown mime types default to jpg. -/
def coverExt (mime : String) : String :=
  if mime == "image/jpeg" || mime == "image/jpg" then "jpg"
  else if mime == "image/png" then "png"
  else if mime == "image/gif" then "gif"
  else if mime == "image/webp" then "webp"
  else "jpg"

/-- local.rs `save_cover_art` (lines 571-588). -/
def save_cover_art (store : CoverStore) (img : CoverImageData) : String × CoverStore :=
  let filename := sha256hex img.data ++ "." ++ coverExt img.mimeType
  if store.any (fun e => e.1 == filename) then (filename, store)
  else (filename, store ++ [(filename, img.data)])

/-! ## The catalog (init_schema, lines 73-174)

Each SQLite table is a list of rows in insertion/update order.
`uuid::Uuid::new_v4()` is modelled as a fresh-name supply `nextId`
threaded through the state. -/

structure ArtistRow where
  id : String
  name : String
  bio : Option String
  imageUrl : Option String
  deriving DecidableEq, Repr

structure AlbumRow where
  id : String
  title : String
  artistId : String
  coverArt : Option String
  deriving DecidableEq, Repr

structure TrackRow where
  id : String
  path : String
  title : String
  artistId : String
  albumId : String
  durationSec : Nat
  trackNumber : Option Nat
  discNumber : Option Nat
  year : Option Nat
  genre : Option String
  bitrate : Option Nat
  playCount : Nat
  liked : Bool
  mtime : Int
  deriving DecidableEq, Repr

structure DB where
  artists : List ArtistRow
  albums : List AlbumRow
  tracks : List TrackRow
  trackArtists : List (String × String)
  albumArtists : List (String × String)
  scanFound : List String
  libraryRoots : List String
  nextId : Nat
  deriving DecidableEq, Repr

/-- Fresh-name supply standing in for `uuid::Uuid::new_v4()`. -/
def mkUuid (n : Nat) : String := "uuid-" ++ toString n

/-- local.rs `resolve_artist_single` (lines 363-392).  The select uses
COLLATE NOCASE; the INSERT OR IGNORE conflicts on the binary
UNIQUE(name) constraint; on conflict the id is re-selected with NOCASE.
The sqlx Err branches (connection failures) cannot occur in the pure
model. -/
def resolve_artist_single (db : DB) (name : String) : String × DB :=
  let name_trimmed := strTrim name
  match db.artists.find? (fun a => nocaseEq a.name name_trimmed) with
  | some row => (row.id, db)
  | none =>
    let new_id := mkUuid db.nextId
    let db := { db with nextId := db.nextId + 1 }
    if db.artists.any (fun a => a.name == name_trimmed) then
      match db.artists.find? (fun a => nocaseEq a.name name_trimmed) with
      | some row => (row.id, db)
      | none => (new_id, db)
    else
      (new_id, { db with artists := db.artists ++ [⟨new_id, name_trimmed, none, none⟩] })

/-- INSERT OR IGNORE into a two-column join table with a composite
primary key. -/
def insertIgnorePair (l : List (String × String)) (p : String × String) :
    List (String × String) :=
  if p ∈ l then l else l ++ [p]

/-- The get-or-create part of `resolve_album` (lines 402-444): select by
(title, artist_id), else save the cover art and INSERT OR IGNORE; on a
conflict (zero rows affected) re-select.  A cover-art write failure
would be logged and leave the album without art; the pure store cannot
fail. -/
def resolve_album_entry (db : DB) (store : CoverStore) (title primary_artist_id : String)
    (cover_image : Option CoverImageData) : String × DB × CoverStore :=
  match db.albums.find? (fun al => al.title == title && al.artistId == primary_artist_id) with
  | some row => (row.id, db, store)
  | none =>
    let new_id := mkUuid db.nextId
    let db := { db with nextId := db.nextId + 1 }
    let (cover_path_str, store) :=
      match cover_image with
      | some img =>
        let r := save_cover_art store img
        (some r.1, r.2)
      | none => (none, store)
    if db.albums.any (fun al => al.title == title && al.artistId == primary_artist_id) then
      match db.albums.find? (fun al => al.title == title && al.artistId == primary_artist_id) with
      | some row => (row.id, db, store)
      | none => (new_id, db, store)
    else
      (new_id,
       { db with albums := db.albums ++ [⟨new_id, title, primary_artist_id, cover_path_str⟩] },
       store)

/-- local.rs `resolve_album` (lines 394-455): the get-or-create above,
then linking every contributing artist id into album_artists
(lines 446-452). -/
def resolve_album (db : DB) (store : CoverStore) (title primary_artist_id : String)
    (all_artist_ids : List String) (cover_image : Option CoverImageData) :
    String × DB × CoverStore :=
  let r := resolve_album_entry db store title primary_artist_id cover_image
  (r.1,
   { r.2.1 with
       albumArtists := all_artist_ids.foldl (fun l aid => insertIgnorePair l (r.1, aid))
         r.2.1.albumArtists },
   r.2.2)

def insertFoundPath (l : List String) (p : String) : List String :=
  if p ∈ l then l else l ++ [p]

/-- local.rs `flush_found` (lines 551-569): one committed transaction of
INSERT OR IGNORE INTO scan_found.  The caller clears its pending vector. -/
def flush_found (db : DB) (paths : List String) : DB :=
  { db with scanFound := paths.foldl insertFoundPath db.scanFound }

structure PendingTrack where
  path : String
  meta : ParsedMetadata
  artistIds : List String
  albumId : String
  mtime : Int
  deriving DecidableEq, Repr

/-- The ON CONFLICT(path) DO UPDATE assignment list (lines 482-493): id,
liked and play_count are not in it, every other mutable field is. -/
def updFn (pt : PendingTrack) (primary : String) (t : TrackRow) : TrackRow :=
  if t.path == pt.path then
    { t with title := pt.meta.title, artistId := primary, albumId := pt.albumId,
             durationSec := pt.meta.duration, trackNumber := pt.meta.trackNumber,
             discNumber := pt.meta.discNumber, year := pt.meta.year,
             genre := pt.meta.genre, bitrate := pt.meta.bitrate, mtime := pt.mtime }
  else t

/-- A freshly inserted track row (lines 479-507 insert arm): play_count
and liked start at their schema defaults. -/
def newTrackRow (pt : PendingTrack) (primary track_id : String) : TrackRow :=
  { id := track_id, path := pt.path, title := pt.meta.title,
    artistId := primary, albumId := pt.albumId,
    durationSec := pt.meta.duration, trackNumber := pt.meta.trackNumber,
    discNumber := pt.meta.discNumber, year := pt.meta.year,
    genre := pt.meta.genre, bitrate := pt.meta.bitrate,
    playCount := 0, liked := false, mtime := pt.mtime }

/-- One iteration of the `flush_tracks` loop body (lines 473-542): the
INSERT ... ON CONFLICT(path) DO UPDATE upsert, the re-select of the row
id by path, the DELETE of the row's stale track_artists links and the
INSERT OR IGNORE of the current ones — all inside the batch
transaction. -/
def upsert_track (db : DB) (pt : PendingTrack) : DB :=
  let track_id := mkUuid db.nextId
  let db := { db with nextId := db.nextId + 1 }
  let primary_artist := pt.artistIds.head?.getD ""
  let tracks :=
    if db.tracks.any (fun t => t.path == pt.path) then
      db.tracks.map (updFn pt primary_artist)
    else
      db.tracks ++ [newTrackRow pt primary_artist track_id]
  let actual_track_id :=
    ((tracks.find? (fun t => t.path == pt.path)).map (fun t => t.id)).getD track_id
  let ta := db.trackArtists.filter (fun l => !(l.1 == actual_track_id))
  let ta := pt.artistIds.foldl (fun l aid => insertIgnorePair l (actual_track_id, aid)) ta
  { db with tracks := tracks, trackArtists := ta }

/-- local.rs `flush_tracks` (lines 457-549): one committed transaction
upserting a batch in order.  The caller clears its pending vector. -/
def flush_tracks (db : DB) (pending : List PendingTrack) : DB :=
  pending.foldl upsert_track db

/-! ## The scan pipeline (scan_path, lines 176-360) -/

inductive ScanResult where
  | found (path : String)
  | new (path : String) (meta : ParsedMetadata) (mtime : Int)
  deriving DecidableEq, Repr

def BATCH_SIZE : Nat := 200

/-- The consumer task's state: the per-run caches and pending batches. -/
structure CState where
  db : DB
  store : CoverStore
  artistCache : List (String × String)
  albumCache : List (String × String)
  pendingTracks : List PendingTrack
  pendingFound : List String
  deriving DecidableEq, Repr

/-- The consumer's per-track artist resolution loop (lines 213-232),
threading the per-scan artist cache (a HashMap, modelled as an
association list: entries are only inserted on a miss).  The Err branch
logs and skips an artist, but it is a database error that cannot occur
in the pure model. -/
def resolveTrackArtists (db : DB) (cache : List (String × String)) :
    List String → DB × List (String × String) × List String
  | [] => (db, cache, [])
  | n :: ns =>
    match cache.find? (fun e => e.1 == n) with
    | some e =>
      let (db, cache, ids) := resolveTrackArtists db cache ns
      (db, cache, e.2 :: ids)
    | none =>
      let (id, db) := resolve_artist_single db n
      let cache := cache ++ [(n, id)]
      let (db, cache, ids) := resolveTrackArtists db cache ns
      (db, cache, id :: ids)

/-- Lines 277-287: push the found path and the pending upsert tuple,
then flush either batch once its threshold is reached (tracks first,
then found, as in the code). -/
def pushAndFlush (c : CState) (dbs : DB) (store2 : CoverStore)
    (aC bC : List (String × String)) (item : PendingTrack) : CState :=
  let pf := c.pendingFound ++ [item.path]
  let pt := c.pendingTracks ++ [item]
  let (dbs, pt) := if BATCH_SIZE ≤ pt.length then (flush_tracks dbs pt, []) else (dbs, pt)
  let (dbs, pf) := if BATCH_SIZE * 5 ≤ pf.length then (flush_found dbs pf, []) else (dbs, pf)
  { db := dbs, store := store2, artistCache := aC, albumCache := bC,
    pendingTracks := pt, pendingFound := pf }

/-- One iteration of the consumer's recv loop (lines 202-288).  Returns
`none` where the Rust code panics: `unwrap_or(&meta.artists[0])` on line
245 evaluates its argument eagerly, so an empty `meta.artists` vector
panics the consumer task (even when `album_artist` is present), which
`scan_path` then surfaces as Err from `consumer_handle.await`. -/
def consumerStep (c : CState) : ScanResult → Option CState
  | .found p =>
    let pf := c.pendingFound ++ [p]
    if BATCH_SIZE * 5 ≤ pf.length then
      some { c with db := flush_found c.db pf, pendingFound := [] }
    else
      some { c with pendingFound := pf }
  | .new p meta mtime =>
    let (db, aCache, track_artist_ids) := resolveTrackArtists c.db c.artistCache meta.artists
    let (db, track_artist_ids) :=
      if track_artist_ids.isEmpty then
        let (id, db) := resolve_artist_single db "Unknown Artist"
        (db, [id])
      else (db, track_artist_ids)
    match meta.artists.head? with
    | none => none
    | some first =>
      let album_artist_name := meta.albumArtist.getD first
      let (album_artist_id, db) := resolve_artist_single db album_artist_name
      let album_key := album_artist_id ++ "::" ++ meta.album
      let (album_id, db, store, bCache) :=
        match c.albumCache.find? (fun e => e.1 == album_key) with
        | some e => (e.2, db, c.store, c.albumCache)
        | none =>
          let (id, db, store) :=
            resolve_album db c.store meta.album album_artist_id track_artist_ids meta.coverImage
          (id, db, store, c.albumCache ++ [(album_key, id)])
      some (pushAndFlush c db store aCache bCache ⟨p, meta, track_artist_ids, album_id, mtime⟩)

def runConsumer (c : CState) : List ScanResult → Option CState
  | [] => some c
  | msg :: msgs =>
    match consumerStep c msg with
    | none => none
    | some c' => runConsumer c' msgs

/-- The consumer's post-loop flushes (lines 290-295). -/
def finishConsumer (c : CState) : DB × CoverStore :=
  let db := if c.pendingTracks.isEmpty then c.db else flush_tracks c.db c.pendingTracks
  let db := if c.pendingFound.isEmpty then db else flush_found db c.pendingFound
  (db, c.store)

/-- The supported audio extension set (lines 309-312). -/
def audioExts : List String :=
  ["mp3", "flac", "wav", "m4a", "ogg", "opus", "aac", "alac", "aiff"]

def isAudioFile (f : FsFile) : Bool :=
  match f.ext with
  | some e => audioExts.contains (asciiLower e)
  | none => false

/-- Lookup in the `path → mtime` HashMap built once per scan from the
tracks table (lines 1079-1085); later inserts overwrite, so the last row
with a given path wins. -/
def lookupMtime (tracks : List TrackRow) (p : String) : Option Int :=
  ((tracks.reverse.find? (fun t => t.path == p)).map (fun t => t.mtime))

/-- Classification of one walked file (lines 303-354).  The second
component counts invocations of the metadata extractor (`parse_metadata`
is called exactly when it is 1). -/
def classifyFile (existing : List TrackRow) (f : FsFile) : Option ScanResult × Nat :=
  if isAudioFile f then
    if lookupMtime existing f.path == some f.mtime then
      (some (.found f.path), 0)
    else
      match parse_metadata f with
      | some meta => (some (.new f.path meta f.mtime), 1)
      | none => (none, 1)
  else (none, 0)

def walkMsgs (existing : List TrackRow) (files : List FsFile) : List ScanResult :=
  files.filterMap (fun f => (classifyFile existing f).1)

def walkExtractions (existing : List TrackRow) (files : List FsFile) : Nat :=
  (files.map (fun f => (classifyFile existing f).2)).sum

/-- local.rs `scan_path` (lines 176-360): walk one root and drain the
channel through a fresh consumer (empty caches, empty pending batches).
`files` is the walk's listing of regular files for this root, in walk
order; the bounded channel delivers every classified result to the
single consumer, so the final state is the sequential fold below. -/
def scan_path (db : DB) (store : CoverStore) (existing : List TrackRow)
    (files : List FsFile) : Option (DB × CoverStore) :=
  (runConsumer ⟨db, store, [], [], [], []⟩ (walkMsgs existing files)).map finishConsumer

/-- The filesystem: for each root path, the regular files the recursive
walk finds under it, in walk order. -/
abbrev FileSystem := List (String × List FsFile)

def filesOfRoot (fs : FileSystem) (root : String) : List FsFile :=
  (((fs.find? (fun e => e.1 == root)).map (fun e => e.2))).getD []

def scanRoots (fs : FileSystem) (existing : List TrackRow) :
    DB → CoverStore → List String → Option (DB × CoverStore)
  | db, store, [] => some (db, store)
  | db, store, root :: roots =>
    match scan_path db store existing (filesOfRoot fs root) with
    | none => none
    | some (db, store) => scanRoots fs existing db store roots

/-- The end-of-scan deletion (line 1098): DELETE FROM tracks WHERE path
NOT IN (SELECT path FROM scan_found), with the schema's ON DELETE
CASCADE removing the track_artists rows of each deleted track (sqlx
enables the foreign_keys pragma for SQLite by default). -/
def applyDeletion (db : DB) : DB :=
  let removed := db.tracks.filter (fun t => !(db.scanFound.contains t.path))
  { db with
    tracks := db.tracks.filter (fun t => db.scanFound.contains t.path),
    trackArtists := db.trackArtists.filter (fun l => !(removed.any (fun t => t.id == l.1))) }

/-- local.rs `scan` (lines 1070-1101) up to the final deletion: snapshot
the `path → mtime` map once, clear scan_found, then walk every
registered root with that one snapshot.  A failing root returns early
(lines 1093-1096), skipping the deletion. -/
def scanCore (fs : FileSystem) (db : DB) (store : CoverStore) : Option (DB × CoverStore) :=
  let existing := db.tracks
  scanRoots fs existing { db with scanFound := [] } store db.libraryRoots

/-- local.rs `scan` (lines 1070-1101).  `PRAGMA optimize` and the
optional Last.fm enrichment (network I/O, not configured by default) do
not touch the tables modelled here. -/
def scan (fs : FileSystem) (db : DB) (store : CoverStore) : Except String (DB × CoverStore) :=
  match scanCore fs db store with
  | none => .error "Scan failed"
  | some (db, store) => .ok (applyDeletion db, store)

/-! ## Lemmas about the string primitives -/

theorem dropWhile_dropWhile (p : α → Bool) (l : List α) :
    (l.dropWhile p).dropWhile p = l.dropWhile p := by
  induction l with
  | nil => rfl
  | cons a t ih =>
    by_cases h : p a
    · simp [List.dropWhile_cons, h, ih]
    · simp [List.dropWhile_cons, h]

theorem head?_dropWhile_ws (p : α → Bool) (l : List α) (a : α)
    (h : (l.dropWhile p).head? = some a) : p a = false := by
  have := List.head?_dropWhile_not p l
  rw [h] at this
  exact this

theorem trimL_idem (l : List Char) : trimL (trimL l) = trimL l := by
  have hz : trimL l = ((l.dropWhile isWsChar).reverse.dropWhile isWsChar).reverse := rfl
  set x := l.dropWhile isWsChar with hx
  set z := x.reverse.dropWhile isWsChar with hzdef
  have h1 : z.reverse.dropWhile isWsChar = z.reverse := by
    cases hzr : z.reverse with
    | nil => rfl
    | cons b t =>
      have hhead : z.reverse.head? = some b := by rw [hzr]; rfl
      rw [List.head?_reverse] at hhead
      have hsuf : z <:+ x.reverse := hzdef ▸ List.dropWhile_suffix isWsChar
      obtain ⟨pre, hpre⟩ := hsuf
      have hzne : z ≠ [] := by
        intro hnil
        rw [hnil] at hzr
        simp at hzr
      have hlast : (x.reverse).getLast? = some b := by
        rw [← hpre, List.getLast?_append]
        rw [hhead]
        rfl
      rw [List.getLast?_reverse] at hlast
      have hws : isWsChar b = false := head?_dropWhile_ws isWsChar l b (hx ▸ hlast)
      rw [List.dropWhile_cons, hws]
      simp
  rw [hz]
  show ((((z.reverse).dropWhile isWsChar).reverse).dropWhile isWsChar).reverse = z.reverse
  rw [h1, List.reverse_reverse, hzdef, dropWhile_dropWhile]

theorem strTrim_idem (s : String) : strTrim (strTrim s) = strTrim s :=
  congrArg String.mk (trimL_idem s.data)

theorem data_append (a b : String) : (a ++ b).data = a.data ++ b.data := by
  cases a
  cases b
  rfl

/-! ## C5: artist splitting -/

/-- C5: `split_artists` replaces each of the delimiters " feat. ",
" ft. ", " & ", " / ", ", " — in that precedence order — by the
separator ";", splits on it, trims each fragment and drops the fragments
that are empty after trimming.  Every returned fragment is nonempty and
trimmed; "A feat. B" yields ["A", "B"] with "A" first, and the other
four delimiters behave identically. -/
theorem C5_split_artists_spec (raw s : String) (hs : s ∈ split_artists raw) :
    (s ≠ "" ∧ strTrim s = s) ∧
    split_artists "A feat. B" = ["A", "B"] ∧
    split_artists "A ft. B" = ["A", "B"] ∧
    split_artists "A & B" = ["A", "B"] ∧
    split_artists "A / B" = ["A", "B"] ∧
    split_artists "A, B" = ["A", "B"] ∧
    split_artists "A feat. B & C, D" = ["A", "B", "C", "D"] := by
  refine ⟨?_, by decide, by decide, by decide, by decide, by decide, by decide⟩
  unfold split_artists at hs
  have h1 := List.of_mem_filter hs
  have h2 := List.mem_of_mem_filter hs
  obtain ⟨t, _, rfl⟩ := List.mem_map.mp h2
  refine ⟨by simpa using h1, strTrim_idem t⟩

/-- C5 witness: the theorem applied to the fragment "A" of
`split_artists "A feat. B"`. -/
theorem C5_split_artists_spec_witness :
    (("A" : String) ≠ "" ∧ strTrim "A" = "A") ∧
    split_artists "A feat. B" = ["A", "B"] ∧
    split_artists "A ft. B" = ["A", "B"] ∧
    split_artists "A & B" = ["A", "B"] ∧
    split_artists "A / B" = ["A", "B"] ∧
    split_artists "A, B" = ["A", "B"] ∧
    split_artists "A feat. B & C, D" = ["A", "B", "C", "D"] :=
  C5_split_artists_spec "A feat. B" "A" (by decide)

/-! ## C7: cover art store -/

def pngImg : CoverImageData := ⟨[0], "image/png"⟩

def jpgImg : CoverImageData := ⟨[0], "image/jpeg"⟩

/-- C7 counterexample: storing the same byte sequence twice, once as
image/png and once as image/jpeg, writes two files into an empty store —
the digest covers only the bytes while the filename also contains the
mime-derived extension, so the claim that identical bytes always yield
exactly one file fails as stated. -/
theorem C7_counterexample :
    (save_cover_art (save_cover_art [] pngImg).2 jpgImg).2.length = 2 := by
  have hne : sha256hex [0] ++ "." ++ "png" ≠ sha256hex [0] ++ "." ++ "jpg" := by
    intro h
    have h2 : (sha256hex [0] ++ ".").data ++ ("png" : String).data
        = (sha256hex [0] ++ ".").data ++ ("jpg" : String).data := by
      rw [← data_append, ← data_append]
      exact congrArg String.data h
    have h3 := List.append_cancel_left h2
    exact absurd h3 (by decide)
  have h1 : (save_cover_art [] pngImg).2 = [(sha256hex [0] ++ "." ++ "png", [0])] := rfl
  rw [h1]
  have hany : ([(sha256hex [0] ++ "." ++ "png", ([0] : List Nat))].any
      (fun e => e.1 == sha256hex [0] ++ "." ++ "jpg")) = false := by
    simp only [List.any_cons, List.any_nil, Bool.or_false]
    exact beq_eq_false_iff_ne.mpr hne
  simp only [save_cover_art]
  rw [show jpgImg.data = [0] from rfl, show coverExt jpgImg.mimeType = "jpg" from by decide,
    hany]
  simp

/-- C7 amended: two stored images with identical bytes and the same
mime-derived extension produce the same filename and the second store is
a no-op (the write is skipped because a file with that name exists), so
they leave exactly one file in the art store. -/
theorem C7_amended_dedup (store : CoverStore) (img1 img2 : CoverImageData)
    (hdata : img1.data = img2.data)
    (hext : coverExt img1.mimeType = coverExt img2.mimeType) :
    (save_cover_art (save_cover_art store img1).2 img2).1 = (save_cover_art store img1).1 ∧
    (save_cover_art (save_cover_art store img1).2 img2).2 = (save_cover_art store img1).2 := by
  have hname : sha256hex img2.data ++ "." ++ coverExt img2.mimeType
      = sha256hex img1.data ++ "." ++ coverExt img1.mimeType := by rw [hdata, hext]
  unfold save_cover_art
  rw [hname]
  by_cases h : store.any (fun e => e.1 == sha256hex img1.data ++ "." ++ coverExt img1.mimeType)
  · simp [h]
  · simp [h]

/-- C7 amended witness: storing the same png image twice on an empty
store. -/
theorem C7_amended_dedup_witness :
    (save_cover_art (save_cover_art [] pngImg).2 pngImg).1 = (save_cover_art [] pngImg).1 ∧
    (save_cover_art (save_cover_art [] pngImg).2 pngImg).2 = (save_cover_art [] pngImg).2 :=
  C7_amended_dedup [] pngImg pngImg rfl rfl

/-! ## C4: artist resolution dedup -/

theorem nocaseEq_congr (t1 t2 x : String) (h : nocaseEq t1 t2 = true) :
    nocaseEq x t1 = nocaseEq x t2 := by
  unfold nocaseEq at h ⊢
  rw [eq_of_beq h]

theorem nocaseEq_refl (a : String) : nocaseEq a a = true := by
  unfold nocaseEq
  exact beq_self_eq_true _

theorem resolve_artist_single_found (db : DB) (name : String) (row : ArtistRow)
    (h : db.artists.find? (fun a => nocaseEq a.name (strTrim name)) = some row) :
    resolve_artist_single db name = (row.id, db) := by
  simp only [resolve_artist_single]
  rw [h]

/-- The fresh row appended on the insert path of the resolver. -/
def freshArtist (db : DB) (name : String) : ArtistRow :=
  ⟨mkUuid db.nextId, strTrim name, none, none⟩

/-- The catalog state after the insert path of the resolver. -/
def afterInsertArtist (db : DB) (name : String) : DB :=
  { db with
      artists := db.artists ++ [freshArtist db name]
      nextId := db.nextId + 1 }

theorem resolve_artist_single_notfound (db : DB) (name : String)
    (h : db.artists.find? (fun a => nocaseEq a.name (strTrim name)) = none) :
    resolve_artist_single db name = (mkUuid db.nextId, afterInsertArtist db name) := by
  have hany : db.artists.any (fun a => a.name == strTrim name) = false := by
    rw [List.any_eq_false]
    intro a ha hbeq
    have hn : a.name = strTrim name := eq_of_beq hbeq
    have h2 := List.find?_eq_none.mp h a ha
    apply h2
    rw [hn]
    exact nocaseEq_refl _
  simp only [resolve_artist_single]
  rw [h]
  simp only [hany]
  simp [afterInsertArtist, freshArtist]

/-- C4: resolving two artist names that are equal case-insensitively
after trimming yields the same artist id; after the first resolution has
run, the second one changes nothing, so at most one artists row is
created in total.  Resolution follows the get-or-create pattern embodied
in `resolve_artist_single`: select with COLLATE NOCASE, otherwise
INSERT OR IGNORE, and re-select when the insert affected zero rows. -/
theorem C4_resolve_artist_dedup (db : DB) (n1 n2 : String)
    (h : nocaseEq (strTrim n1) (strTrim n2) = true) :
    (resolve_artist_single (resolve_artist_single db n1).2 n2).1
      = (resolve_artist_single db n1).1 ∧
    (resolve_artist_single (resolve_artist_single db n1).2 n2).2
      = (resolve_artist_single db n1).2 ∧
    (resolve_artist_single db n1).2.artists.length ≤ db.artists.length + 1 := by
  have hpred : (fun a : ArtistRow => nocaseEq a.name (strTrim n2))
      = (fun a : ArtistRow => nocaseEq a.name (strTrim n1)) :=
    funext fun a => (nocaseEq_congr _ _ _ h).symm
  cases hfind : db.artists.find? (fun a => nocaseEq a.name (strTrim n1)) with
  | some row =>
    have e1 := resolve_artist_single_found db n1 row hfind
    have e2 : resolve_artist_single db n2 = (row.id, db) := by
      apply resolve_artist_single_found
      rw [hpred]
      exact hfind
    have e2a : resolve_artist_single (resolve_artist_single db n1).2 n2 = (row.id, db) := by
      rw [e1]
      exact e2
    rw [e2a, e1]
    exact ⟨rfl, rfl, Nat.le_succ _⟩
  | none =>
    have e1 := resolve_artist_single_notfound db n1 hfind
    have hfind2 : (afterInsertArtist db n1).artists.find?
        (fun a => nocaseEq a.name (strTrim n2)) = some (freshArtist db n1) := by
      rw [hpred]
      show (db.artists ++ [freshArtist db n1]).find?
        (fun a => nocaseEq a.name (strTrim n1)) = _
      rw [List.find?_append, hfind]
      simp [List.find?, freshArtist, nocaseEq_refl]
    have e2 := resolve_artist_single_found _ n2 _ hfind2
    have e2a : resolve_artist_single (resolve_artist_single db n1).2 n2
        = ((freshArtist db n1).id, afterInsertArtist db n1) := by
      rw [e1]
      exact e2
    rw [e2a, e1]
    refine ⟨rfl, rfl, ?_⟩
    show (afterInsertArtist db n1).artists.length ≤ db.artists.length + 1
    simp [afterInsertArtist]

def emptyDB : DB := ⟨[], [], [], [], [], [], [], 0⟩

/-- C4 witness: resolving "Foo" then "foo" on an empty catalog. -/
theorem C4_resolve_artist_dedup_witness :
    (resolve_artist_single (resolve_artist_single emptyDB "Foo").2 "foo").1
      = (resolve_artist_single emptyDB "Foo").1 ∧
    (resolve_artist_single (resolve_artist_single emptyDB "Foo").2 "foo").2
      = (resolve_artist_single emptyDB "Foo").2 ∧
    (resolve_artist_single emptyDB "Foo").2.artists.length ≤ emptyDB.artists.length + 1 :=
  C4_resolve_artist_dedup emptyDB "Foo" "foo" (by decide)

/-! ## C6: filename fallback -/

/-- The chosen tag offers no artist string (absent, or blank after
trimming). -/
def noUsableArtistTag (c : AudioContent) : Prop :=
  ∀ t, c.tag = some t → ∀ a, t.artist = some a → strTrim a = ""

/-- The trimmed tag title, when one is present and nonblank — the value
the extractor keeps when no filename pattern applies. -/
def usableTitle (c : AudioContent) : Option String :=
  match c.tag with
  | some t =>
    match t.title with
    | some s => if strTrim s == "" then none else some (strTrim s)
    | none => none
  | none => none

/-- C6 amended: for a readable file whose tag provides no artist, the
extractor infers from the stem split on " - ": three fragments give
artists = split_artists of the first, album and title the trimmed second
and third; two fragments give artists from the first and title the
trimmed second; any other shape leaves the sentinel artist and keeps the
tag title when a nonblank one exists — the stem becomes the title only
as a default when the tag has no usable title. -/
theorem applyTag_noUsableArtist (stem : String) (c : AudioContent)
    (hart : noUsableArtistTag c) :
    (applyTag stem c).artists = ["Unknown Artist"] ∧
    (applyTag stem c).title = (usableTitle c).getD stem := by
  unfold applyTag usableTitle
  cases htag : c.tag with
  | none => exact ⟨rfl, rfl⟩
  | some t =>
    constructor
    · show (match t.artist with
        | some a => if strTrim a == "" then ["Unknown Artist"] else split_artists a
        | none => ["Unknown Artist"]) = ["Unknown Artist"]
      cases hta : t.artist with
      | none => rfl
      | some a =>
        have ha : strTrim a = "" := hart t htag a hta
        simp [ha]
    · cases hts : t.title with
      | none => simp [hts]
      | some s =>
        by_cases hb : strTrim s = ""
        · simp [hts, hb]
        · simp [hts, hb]

theorem filenameFallback_three (stem : String) (m : ParsedMetadata)
    (hm : m.artists = ["Unknown Artist"]) (p0 p1 p2 : String)
    (hsp : strSplitOn stem " - " = [p0, p1, p2]) :
    filenameFallback stem m
      = { m with artists := split_artists p0, album := strTrim p1, title := strTrim p2 } := by
  unfold filenameFallback
  rw [hm, hsp]
  simp

theorem filenameFallback_two (stem : String) (m : ParsedMetadata)
    (hm : m.artists = ["Unknown Artist"]) (p0 p1 : String)
    (hsp : strSplitOn stem " - " = [p0, p1]) :
    filenameFallback stem m = { m with artists := split_artists p0, title := strTrim p1 } := by
  unfold filenameFallback
  rw [hm, hsp]
  simp

theorem filenameFallback_other (stem : String) (m : ParsedMetadata)
    (h3 : (strSplitOn stem " - ").length ≠ 3) (h2 : (strSplitOn stem " - ").length ≠ 2) :
    filenameFallback stem m = m := by
  unfold filenameFallback
  by_cases hm : m.artists == ["Unknown Artist"]
  · rw [if_pos hm]
    cases hsp : strSplitOn stem " - " with
    | nil => rfl
    | cons a t1 =>
      cases t1 with
      | nil => rfl
      | cons b t2 =>
        cases t2 with
        | nil => rw [hsp] at h2; exact absurd rfl h2
        | cons d t3 =>
          cases t3 with
          | nil => rw [hsp] at h3; exact absurd rfl h3
          | cons e t4 => rfl
  · rw [if_neg hm]

/-- C6 amended: for a readable file whose tag provides no usable artist,
the extractor infers from the stem split on " - ": three fragments give
artists split from the first, album and title the trimmed second and
third; two fragments give artists split from the first and title the
trimmed second; any other shape keeps the sentinel artist and keeps the
tag title when a nonblank one exists — the stem becomes the title only
as a default when the tag has no usable title. -/
theorem C6_filename_fallback (f : FsFile) (c : AudioContent)
    (hc : f.content = some c) (hart : noUsableArtistTag c) :
    ∃ m, parse_metadata f = some m ∧
      (∀ p0 p1 p2, strSplitOn f.stem " - " = [p0, p1, p2] →
        m.artists = split_artists p0 ∧ m.album = strTrim p1 ∧ m.title = strTrim p2) ∧
      (∀ p0 p1, strSplitOn f.stem " - " = [p0, p1] →
        m.artists = split_artists p0 ∧ m.title = strTrim p1) ∧
      ((strSplitOn f.stem " - ").length ≠ 3 → (strSplitOn f.stem " - ").length ≠ 2 →
        m.artists = ["Unknown Artist"] ∧ m.title = (usableTitle c).getD f.stem) := by
  obtain ⟨hua, hut⟩ := applyTag_noUsableArtist f.stem c hart
  refine ⟨filenameFallback f.stem (applyTag f.stem c), ?_, ?_, ?_, ?_⟩
  · simp [parse_metadata, hc]
  · intro p0 p1 p2 hsp
    rw [filenameFallback_three f.stem _ hua p0 p1 p2 hsp]
    exact ⟨rfl, rfl, rfl⟩
  · intro p0 p1 hsp
    rw [filenameFallback_two f.stem _ hua p0 p1 hsp]
    exact ⟨rfl, rfl⟩
  · intro h3 h2
    rw [filenameFallback_other f.stem _ h3 h2]
    exact ⟨hua, hut⟩

def c6good : FsFile :=
  { path := "/r/Artist - Album - Title.flac", stem := "Artist - Album - Title",
    ext := some "flac", mtime := 1, content := some ⟨10, none, none⟩ }

/-- C6 witness: the amended theorem applied to an untagged file named
"Artist - Album - Title.flac". -/
theorem C6_filename_fallback_witness :
    ∃ m, parse_metadata c6good = some m ∧
      (∀ p0 p1 p2, strSplitOn c6good.stem " - " = [p0, p1, p2] →
        m.artists = split_artists p0 ∧ m.album = strTrim p1 ∧ m.title = strTrim p2) ∧
      (∀ p0 p1, strSplitOn c6good.stem " - " = [p0, p1] →
        m.artists = split_artists p0 ∧ m.title = strTrim p1) ∧
      ((strSplitOn c6good.stem " - ").length ≠ 3 → (strSplitOn c6good.stem " - ").length ≠ 2 →
        m.artists = ["Unknown Artist"] ∧
        m.title = (usableTitle ⟨10, none, none⟩).getD c6good.stem) :=
  C6_filename_fallback c6good ⟨10, none, none⟩ rfl
    (fun _ ht => Option.noConfusion ht)

def c6file : FsFile :=
  { path := "/r/track01.mp3", stem := "track01", ext := some "mp3", mtime := 1,
    content := some ⟨3, none, some { title := some "Song" }⟩ }

/-- C6 counterexample: a readable file whose tag provides no artist but
does have the title "Song", with stem "track01" (which does not split on
" - "): the claim as stated requires the stem itself to become the
title, but the extractor keeps the tag title "Song". -/
theorem C6_counterexample :
    ((c6file.content.bind (fun cc => cc.tag)).bind (fun t => t.artist)) = none ∧
    (strSplitOn c6file.stem " - ").length = 1 ∧
    (parse_metadata c6file).map (fun m => m.title) = some "Song" ∧
    ¬ ((parse_metadata c6file).map (fun m => m.title) = some c6file.stem) ∧
    (parse_metadata c6file).map (fun m => m.artists) = some ["Unknown Artist"] := by
  refine ⟨rfl, by decide, by decide, by decide, by decide⟩

/-! ## C9: the empty-artist panic -/

def c9file : FsFile :=
  { path := "/r/c.mp3", stem := "c", ext := some "mp3", mtime := 9,
    content := some ⟨3, none, some { title := some "SongC", artist := some " & " }⟩ }

def c9db : DB := ⟨[], [], [], [], [], [], ["r"], 0⟩

/-- C9: evaluation at the failing input.  The artist tag " & " consists
only of delimiter text, so `split_artists` returns the empty list and
the filename inference does not trigger (it requires the sentinel
singleton).  The consumer then evaluates `meta.artists[0]` — the eager
argument of `unwrap_or` on line 245 — on an empty vector and panics, so
the scan fails instead of linking the sentinel artist as the claim (and
the spec) require. -/
theorem C9_empty_artist_panic :
    (parse_metadata c9file).map (fun m => m.artists) = some [] ∧
    scan [("r", [c9file])] c9db [] = Except.error "Scan failed" := by
  refine ⟨by decide, ?_⟩
  rfl

/-! ## C8: album-artist linking -/

theorem insertIgnorePair_mem_of_mem (l : List (String × String)) (p q : String × String)
    (h : q ∈ l) : q ∈ insertIgnorePair l p := by
  unfold insertIgnorePair
  split
  · exact h
  · exact List.mem_append_left _ h

theorem insertIgnorePair_mem_self (l : List (String × String)) (p : String × String) :
    p ∈ insertIgnorePair l p := by
  unfold insertIgnorePair
  split
  · assumption
  · exact List.mem_append_right _ (List.mem_singleton.mpr rfl)

theorem foldl_insertIgnorePair_mem_of_mem (aid : String) (ids : List String)
    (l : List (String × String)) (q : String × String) (h : q ∈ l) :
    q ∈ ids.foldl (fun l i => insertIgnorePair l (aid, i)) l := by
  induction ids generalizing l with
  | nil => exact h
  | cons i rest ih => exact ih _ (insertIgnorePair_mem_of_mem l (aid, i) q h)

theorem foldl_insertIgnorePair_mem (aid : String) (ids : List String)
    (l : List (String × String)) (x : String) (hx : x ∈ ids) :
    (aid, x) ∈ ids.foldl (fun l i => insertIgnorePair l (aid, i)) l := by
  induction ids generalizing l with
  | nil => cases hx
  | cons i rest ih =>
    rcases List.mem_cons.mp hx with hx | hx
    · subst hx
      exact foldl_insertIgnorePair_mem_of_mem aid rest _ _ (insertIgnorePair_mem_self l (aid, x))
    · exact ih _ hx

/-- C8 amended: when album resolution actually runs — that is, for the
track that first resolves a given album key in a run (a per-run
album-cache miss) — every contributing artist id is linked to the
returned album id in album_artists.  A later track whose album key hits
the cache skips `resolve_album` entirely and links nothing. -/
theorem C8_resolve_album_links (db : DB) (store : CoverStore) (title pid : String)
    (ids : List String) (cover : Option CoverImageData) (aid : String) (hx : aid ∈ ids) :
    ((resolve_album db store title pid ids cover).1, aid)
      ∈ (resolve_album db store title pid ids cover).2.1.albumArtists := by
  unfold resolve_album
  exact foldl_insertIgnorePair_mem _ ids _ aid hx

/-- C8 amended witness: resolving an album with two contributing
artists links the second one. -/
theorem C8_resolve_album_links_witness :
    ((resolve_album emptyDB [] "Z" "a0" ["a0", "a1"] none).1, "a1")
      ∈ (resolve_album emptyDB [] "Z" "a0" ["a0", "a1"] none).2.1.albumArtists :=
  C8_resolve_album_links emptyDB [] "Z" "a0" ["a0", "a1"] none "a1" (by decide)

def c8tagA : TagData := { title := some "SongA", artist := some "X", album := some "Z" }

def c8tagB : TagData :=
  { title := some "SongB", artist := some "Y", album := some "Z", albumArtist := some "X" }

def c8fileA : FsFile :=
  { path := "/r/a.flac", stem := "a", ext := some "flac", mtime := 5,
    content := some ⟨10, some 900, some c8tagA⟩ }

def c8fileB : FsFile :=
  { path := "/r/b.flac", stem := "b", ext := some "flac", mtime := 7,
    content := some ⟨11, some 901, some c8tagB⟩ }

def c8fs : FileSystem := [("r", [c8fileA, c8fileB])]

def c8db0 : DB := ⟨[], [], [], [], [], [], ["r"], 0⟩

/-- C8 counterexample: two files in album "Z" whose album-artist
resolves to X's id both map to the same album key.  The first (by X)
resolves the album and fills the per-run cache; the second, by the
contributing artist Y (id "uuid-2"), hits the cache, so `resolve_album`
never runs for it and Y is not linked in album_artists — even though
Y's track row carries that album and a track-artist link to Y. -/
theorem C8_counterexample :
    ((scan c8fs c8db0 []).toOption.map (fun r =>
      (r.1.tracks.any (fun t => t.path == "/r/b.flac" && t.albumId == "uuid-1"
          && r.1.trackArtists.contains (t.id, "uuid-2")),
       r.1.artists.any (fun a => a.id == "uuid-2" && a.name == "Y"),
       r.1.albumArtists.contains ("uuid-1", "uuid-2"))))
      = some (true, true, false) := by
  decide

/-! ## C3: fingerprint skip -/

/-- Processing a found-message only records the path: every catalog
table other than scan_found, the cover store, the caches and the pending
track batch are untouched. -/
theorem consumerStep_found_frame (c : CState) (p : String) :
    ∃ c', consumerStep c (.found p) = some c' ∧
      c'.db.tracks = c.db.tracks ∧ c'.db.artists = c.db.artists ∧
      c'.db.albums = c.db.albums ∧ c'.db.trackArtists = c.db.trackArtists ∧
      c'.db.albumArtists = c.db.albumArtists ∧ c'.db.libraryRoots = c.db.libraryRoots ∧
      c'.db.nextId = c.db.nextId ∧ c'.store = c.store ∧
      c'.artistCache = c.artistCache ∧ c'.albumCache = c.albumCache ∧
      c'.pendingTracks = c.pendingTracks := by
  simp only [consumerStep]
  split
  · exact ⟨_, rfl, rfl, rfl, rfl, rfl, rfl, rfl, rfl, rfl, rfl, rfl, rfl⟩
  · exact ⟨_, rfl, rfl, rfl, rfl, rfl, rfl, rfl, rfl, rfl, rfl, rfl, rfl⟩

/-- C3: a walked audio file whose path is in the snapshot map with an
identical mtime fingerprint is classified unchanged: the walk emits a
found-path message for it without invoking the extractor (count 0);
over a walk in which every audio file matches its fingerprint the
extraction count is zero; and the consumer handles a found-message by
recording the path only — tracks, artists, albums, links, the cover
store and the caches are untouched. -/
theorem C3_fingerprint_skip (existing : List TrackRow) (f : FsFile) (files : List FsFile)
    (c : CState)
    (haudio : isAudioFile f = true)
    (hmt : lookupMtime existing f.path = some f.mtime)
    (hall : ∀ g ∈ files, isAudioFile g = true → lookupMtime existing g.path = some g.mtime) :
    classifyFile existing f = (some (.found f.path), 0) ∧
    walkExtractions existing files = 0 ∧
    ∃ c', consumerStep c (.found f.path) = some c' ∧
      c'.db.tracks = c.db.tracks ∧ c'.db.artists = c.db.artists ∧
      c'.db.albums = c.db.albums ∧ c'.db.trackArtists = c.db.trackArtists ∧
      c'.db.albumArtists = c.db.albumArtists ∧ c'.db.libraryRoots = c.db.libraryRoots ∧
      c'.db.nextId = c.db.nextId ∧ c'.store = c.store ∧
      c'.artistCache = c.artistCache ∧ c'.albumCache = c.albumCache ∧
      c'.pendingTracks = c.pendingTracks := by
  refine ⟨?_, ?_, consumerStep_found_frame c f.path⟩
  · simp [classifyFile, haudio, hmt]
  · unfold walkExtractions
    apply List.sum_eq_zero
    intro x hxm
    obtain ⟨g, hg, rfl⟩ := List.mem_map.mp hxm
    by_cases ha : isAudioFile g
    · have hm := hall g hg ha
      simp [classifyFile, ha, hm]
    · simp [classifyFile, ha]

def c3row : TrackRow :=
  { id := "t1", path := "/r/a.flac", title := "A", artistId := "", albumId := "",
    durationSec := 1, trackNumber := none, discNumber := none, year := none, genre := none,
    bitrate := none, playCount := 0, liked := false, mtime := 5 }

def c3file : FsFile :=
  { path := "/r/a.flac", stem := "a", ext := some "flac", mtime := 5, content := none }

def c3state : CState := ⟨emptyDB, [], [], [], [], []⟩

/-- C3 witness: one catalogued file with a matching fingerprint. -/
theorem C3_fingerprint_skip_witness :
    classifyFile [c3row] c3file = (some (.found c3file.path), 0) ∧
    walkExtractions [c3row] [c3file] = 0 ∧
    ∃ c', consumerStep c3state (.found c3file.path) = some c' ∧
      c'.db.tracks = c3state.db.tracks ∧ c'.db.artists = c3state.db.artists ∧
      c'.db.albums = c3state.db.albums ∧ c'.db.trackArtists = c3state.db.trackArtists ∧
      c'.db.albumArtists = c3state.db.albumArtists ∧
      c'.db.libraryRoots = c3state.db.libraryRoots ∧
      c'.db.nextId = c3state.db.nextId ∧ c'.store = c3state.store ∧
      c'.artistCache = c3state.artistCache ∧ c'.albumCache = c3state.albumCache ∧
      c'.pendingTracks = c3state.pendingTracks :=
  C3_fingerprint_skip [c3row] c3file [c3file] c3state (by decide) (by decide)
    (fun g hg _ => by
      have : g = c3file := List.mem_singleton.mp hg
      subst this
      decide)

/-! ## C10: the track upsert -/

theorem find?_key_of_mem_nodup {α β : Type} [BEq β] [LawfulBEq β] (key : α → β)
    (l : List α) (r : α) (hnd : (l.map key).Nodup) (hr : r ∈ l) (k : β) (hk : key r = k) :
    l.find? (fun a => key a == k) = some r := by
  induction l with
  | nil => cases hr
  | cons a t ih =>
    rcases List.mem_cons.mp hr with rfl | hr2
    · rw [List.find?_cons_of_pos]
      rw [hk]
      exact beq_self_eq_true k
    · have hka : (key a == k) ≠ true := by
        intro he
        have hmem : key r ∈ t.map key := List.mem_map_of_mem key hr2
        rw [hk] at hmem
        rw [← eq_of_beq he] at hmem
        exact (List.nodup_cons.mp hnd).1 hmem
      have step : List.find? (fun x => key x == k) (a :: t)
          = List.find? (fun x => key x == k) t := by
        apply List.find?_cons_of_neg
        simpa using hka
      rw [step]
      exact ih (List.nodup_cons.mp hnd).2 hr2

theorem foldl_insertIgnorePair_mem_inv (aid : String) (ids : List String)
    (l : List (String × String)) (q : String × String)
    (h : q ∈ ids.foldl (fun l i => insertIgnorePair l (aid, i)) l) :
    q ∈ l ∨ (q.1 = aid ∧ q.2 ∈ ids) := by
  induction ids generalizing l with
  | nil => exact Or.inl h
  | cons i rest ih =>
    rcases ih _ h with hq | ⟨h1, h2⟩
    · change q ∈ insertIgnorePair l (aid, i) at hq
      unfold insertIgnorePair at hq
      split at hq
      · exact Or.inl hq
      · rcases List.mem_append.mp hq with hq | hq
        · exact Or.inl hq
        · have : q = (aid, i) := List.mem_singleton.mp hq
          subst this
          exact Or.inr ⟨rfl, List.mem_cons_self _ _⟩
    · exact Or.inr ⟨h1, List.mem_cons_of_mem _ h2⟩

theorem updFn_path (pt : PendingTrack) (primary : String) (t : TrackRow) :
    (updFn pt primary t).path = t.path := by
  unfold updFn
  split <;> rfl

theorem updFn_of_ne (pt : PendingTrack) (primary : String) (t : TrackRow)
    (h : t.path ≠ pt.path) : updFn pt primary t = t := by
  unfold updFn
  rw [if_neg]
  simpa using h

/-- Characterization of `upsert_track` on a path that already has a row:
the tracks table is rewritten through the update assignment, and this
row's artist links are rebuilt from scratch; artists, albums,
album_artists, scan_found and the roots are untouched. -/
theorem upsert_track_existing (db : DB) (pt : PendingTrack) (r : TrackRow)
    (hnd : (db.tracks.map (fun t => t.path)).Nodup)
    (hr : r ∈ db.tracks) (hpath : r.path = pt.path) :
    (upsert_track db pt).tracks = db.tracks.map (updFn pt (pt.artistIds.head?.getD "")) ∧
    (upsert_track db pt).trackArtists
      = pt.artistIds.foldl (fun l aid => insertIgnorePair l (r.id, aid))
          (db.trackArtists.filter (fun l => !(l.1 == r.id))) ∧
    (upsert_track db pt).artists = db.artists ∧
    (upsert_track db pt).albums = db.albums ∧
    (upsert_track db pt).albumArtists = db.albumArtists ∧
    (upsert_track db pt).scanFound = db.scanFound ∧
    (upsert_track db pt).libraryRoots = db.libraryRoots := by
  have hany : db.tracks.any (fun t => t.path == pt.path) = true :=
    List.any_eq_true.mpr ⟨r, hr, by rw [hpath]; exact beq_self_eq_true _⟩
  have hfind : db.tracks.find? (fun t => t.path == pt.path) = some r :=
    find?_key_of_mem_nodup (fun t => t.path) db.tracks r hnd hr pt.path hpath
  have hfind2 : (db.tracks.map (updFn pt (pt.artistIds.head?.getD ""))).find?
      (fun t => t.path == pt.path) = some (updFn pt (pt.artistIds.head?.getD "") r) := by
    rw [List.find?_map]
    have hcomp : ((fun t : TrackRow => t.path == pt.path)
        ∘ updFn pt (pt.artistIds.head?.getD "")) = (fun t : TrackRow => t.path == pt.path) := by
      funext t
      show ((updFn pt _ t).path == pt.path) = (t.path == pt.path)
      rw [updFn_path]
    rw [hcomp, hfind]
    rfl
  have hid : (updFn pt (pt.artistIds.head?.getD "") r).id = r.id := by
    unfold updFn
    split <;> rfl
  simp only [upsert_track, hany, if_true, hfind2]
  simp [hid]

/-- C10: upserting a track whose path already exists keeps the row's id
and its playback-owned liked and play_count, replaces title, artist_id,
album_id, duration, track/disc number, year, genre, bitrate and mtime,
keeps the table size and every other row, and rebuilds the row's artist
links inside the same transaction: the links of the updated row are
afterwards exactly the batch item's artist ids, and no other row's
links change. -/
theorem C10_upsert_frame (db : DB) (pt : PendingTrack) (r : TrackRow)
    (hnd : (db.tracks.map (fun t => t.path)).Nodup)
    (hr : r ∈ db.tracks) (hpath : r.path = pt.path) :
    ∃ r', r' ∈ (upsert_track db pt).tracks ∧
      r'.path = r.path ∧ r'.id = r.id ∧ r'.liked = r.liked ∧ r'.playCount = r.playCount ∧
      r'.title = pt.meta.title ∧ r'.artistId = pt.artistIds.head?.getD "" ∧
      r'.albumId = pt.albumId ∧ r'.durationSec = pt.meta.duration ∧
      r'.trackNumber = pt.meta.trackNumber ∧ r'.discNumber = pt.meta.discNumber ∧
      r'.year = pt.meta.year ∧ r'.genre = pt.meta.genre ∧ r'.bitrate = pt.meta.bitrate ∧
      r'.mtime = pt.mtime ∧
      (upsert_track db pt).tracks.length = db.tracks.length ∧
      (∀ t ∈ db.tracks, t.path ≠ pt.path → t ∈ (upsert_track db pt).tracks) ∧
      (∀ aid ∈ pt.artistIds, (r.id, aid) ∈ (upsert_track db pt).trackArtists) ∧
      (∀ q ∈ (upsert_track db pt).trackArtists, q.1 = r.id → q.2 ∈ pt.artistIds) ∧
      (∀ q ∈ db.trackArtists, q.1 ≠ r.id → q ∈ (upsert_track db pt).trackArtists) ∧
      (∀ q ∈ (upsert_track db pt).trackArtists, q.1 ≠ r.id → q ∈ db.trackArtists) ∧
      (upsert_track db pt).artists = db.artists ∧
      (upsert_track db pt).albums = db.albums ∧
      (upsert_track db pt).albumArtists = db.albumArtists ∧
      (upsert_track db pt).scanFound = db.scanFound ∧
      (upsert_track db pt).libraryRoots = db.libraryRoots := by
  obtain ⟨htr, hta, hart, halb, haa, hsf, hlr⟩ := upsert_track_existing db pt r hnd hr hpath
  have hcond : (r.path == pt.path) = true := by rw [hpath]; exact beq_self_eq_true _
  have hupd : updFn pt (pt.artistIds.head?.getD "") r
      = { r with title := pt.meta.title, artistId := pt.artistIds.head?.getD "",
                 albumId := pt.albumId, durationSec := pt.meta.duration,
                 trackNumber := pt.meta.trackNumber, discNumber := pt.meta.discNumber,
                 year := pt.meta.year, genre := pt.meta.genre, bitrate := pt.meta.bitrate,
                 mtime := pt.mtime } := by
    unfold updFn
    rw [if_pos hcond]
  refine ⟨updFn pt (pt.artistIds.head?.getD "") r, ?_, ?_, ?_, ?_, ?_, ?_, ?_, ?_, ?_, ?_, ?_,
    ?_, ?_, ?_, ?_, ?_, ?_, ?_, ?_, ?_, ?_, hart, halb, haa, hsf, hlr⟩
  · rw [htr]
    exact List.mem_map_of_mem _ hr
  · rw [hupd]
  · rw [hupd]
  · rw [hupd]
  · rw [hupd]
  · rw [hupd]
  · rw [hupd]
  · rw [hupd]
  · rw [hupd]
  · rw [hupd]
  · rw [hupd]
  · rw [hupd]
  · rw [hupd]
  · rw [hupd]
  · rw [hupd]
  · rw [htr, List.length_map]
  · intro t ht hne
    rw [htr]
    rw [← updFn_of_ne pt (pt.artistIds.head?.getD "") t hne]
    exact List.mem_map_of_mem _ ht
  · intro aid ha
    rw [hta]
    exact foldl_insertIgnorePair_mem _ _ _ _ ha
  · intro q hq h1
    rw [hta] at hq
    rcases foldl_insertIgnorePair_mem_inv _ _ _ _ hq with hf | ⟨_, h2⟩
    · have := (List.mem_filter.mp hf).2
      rw [h1] at this
      simp at this
    · exact h2
  · intro q hq hne
    rw [hta]
    apply foldl_insertIgnorePair_mem_of_mem
    apply List.mem_filter.mpr
    refine ⟨hq, ?_⟩
    simpa using hne
  · intro q hq hne
    rw [hta] at hq
    rcases foldl_insertIgnorePair_mem_inv _ _ _ _ hq with hf | ⟨h1, _⟩
    · exact (List.mem_filter.mp hf).1
    · exact absurd h1 hne

def c10row : TrackRow :=
  { id := "t1", path := "/r/a.flac", title := "Old", artistId := "a1", albumId := "al1",
    durationSec := 1, trackNumber := some 1, discNumber := none, year := some 1999,
    genre := some "rock", bitrate := some 320, playCount := 7, liked := true, mtime := 5 }

def c10meta : ParsedMetadata :=
  { title := "New", artists := ["B"], albumArtist := none, album := "Z", duration := 2,
    trackNumber := some 2, discNumber := some 1, year := some 2001, genre := none,
    bitrate := some 128, coverImage := none }

def c10pt : PendingTrack :=
  { path := "/r/a.flac", meta := c10meta, artistIds := ["b1"], albumId := "al2", mtime := 9 }

def c10db : DB := ⟨[], [], [c10row], [("t1", "a1"), ("t2", "a9")], [], [], [], 3⟩

/-- C10 witness: re-scanning a changed file updates its row in place. -/
theorem C10_upsert_frame_witness :
    ∃ r', r' ∈ (upsert_track c10db c10pt).tracks ∧
      r'.path = c10row.path ∧ r'.id = c10row.id ∧ r'.liked = c10row.liked ∧
      r'.playCount = c10row.playCount ∧
      r'.title = c10pt.meta.title ∧ r'.artistId = c10pt.artistIds.head?.getD "" ∧
      r'.albumId = c10pt.albumId ∧ r'.durationSec = c10pt.meta.duration ∧
      r'.trackNumber = c10pt.meta.trackNumber ∧ r'.discNumber = c10pt.meta.discNumber ∧
      r'.year = c10pt.meta.year ∧ r'.genre = c10pt.meta.genre ∧ r'.bitrate = c10pt.meta.bitrate ∧
      r'.mtime = c10pt.mtime ∧
      (upsert_track c10db c10pt).tracks.length = c10db.tracks.length ∧
      (∀ t ∈ c10db.tracks, t.path ≠ c10pt.path → t ∈ (upsert_track c10db c10pt).tracks) ∧
      (∀ aid ∈ c10pt.artistIds, (c10row.id, aid) ∈ (upsert_track c10db c10pt).trackArtists) ∧
      (∀ q ∈ (upsert_track c10db c10pt).trackArtists, q.1 = c10row.id → q.2 ∈ c10pt.artistIds) ∧
      (∀ q ∈ c10db.trackArtists, q.1 ≠ c10row.id → q ∈ (upsert_track c10db c10pt).trackArtists) ∧
      (∀ q ∈ (upsert_track c10db c10pt).trackArtists, q.1 ≠ c10row.id → q ∈ c10db.trackArtists) ∧
      (upsert_track c10db c10pt).artists = c10db.artists ∧
      (upsert_track c10db c10pt).albums = c10db.albums ∧
      (upsert_track c10db c10pt).albumArtists = c10db.albumArtists ∧
      (upsert_track c10db c10pt).scanFound = c10db.scanFound ∧
      (upsert_track c10db c10pt).libraryRoots = c10db.libraryRoots :=
  C10_upsert_frame c10db c10pt c10row (by decide) (by decide) (by decide)

/-! ## Frame lemmas: what each pipeline step leaves untouched -/

theorem resolve_artist_single_frame (db : DB) (n : String) :
    (resolve_artist_single db n).2.tracks = db.tracks ∧
    (resolve_artist_single db n).2.scanFound = db.scanFound ∧
    (resolve_artist_single db n).2.libraryRoots = db.libraryRoots := by
  simp only [resolve_artist_single]
  split
  · exact ⟨rfl, rfl, rfl⟩
  · split
    · split
      · exact ⟨rfl, rfl, rfl⟩
      · exact ⟨rfl, rfl, rfl⟩
    · exact ⟨rfl, rfl, rfl⟩

theorem resolve_album_entry_frame (db : DB) (store : CoverStore) (title pid : String)
    (cover : Option CoverImageData) :
    (resolve_album_entry db store title pid cover).2.1.tracks = db.tracks ∧
    (resolve_album_entry db store title pid cover).2.1.scanFound = db.scanFound ∧
    (resolve_album_entry db store title pid cover).2.1.libraryRoots = db.libraryRoots := by
  simp only [resolve_album_entry]
  split
  · exact ⟨rfl, rfl, rfl⟩
  · cases cover <;> simp only [] <;> split <;> exact ⟨rfl, rfl, rfl⟩

theorem resolve_album_frame (db : DB) (store : CoverStore) (title pid : String)
    (ids : List String) (cover : Option CoverImageData) :
    (resolve_album db store title pid ids cover).2.1.tracks = db.tracks ∧
    (resolve_album db store title pid ids cover).2.1.scanFound = db.scanFound ∧
    (resolve_album db store title pid ids cover).2.1.libraryRoots = db.libraryRoots := by
  obtain ⟨h1, h2, h3⟩ := resolve_album_entry_frame db store title pid cover
  simp only [resolve_album]
  exact ⟨h1, h2, h3⟩

theorem resolveTrackArtists_frame (names : List String) (db : DB) (cache : List (String × String)) :
    (resolveTrackArtists db cache names).1.tracks = db.tracks ∧
    (resolveTrackArtists db cache names).1.scanFound = db.scanFound ∧
    (resolveTrackArtists db cache names).1.libraryRoots = db.libraryRoots := by
  induction names generalizing db cache with
  | nil => exact ⟨rfl, rfl, rfl⟩
  | cons n ns ih =>
    simp only [resolveTrackArtists]
    split
    · exact ih db cache
    · obtain ⟨e1, e2, e3⟩ := resolve_artist_single_frame db n
      exact ⟨(ih _ _).1.trans e1, (ih _ _).2.1.trans e2, (ih _ _).2.2.trans e3⟩

theorem flush_found_frame (db : DB) (ps : List String) :
    (flush_found db ps).tracks = db.tracks ∧
    (flush_found db ps).artists = db.artists ∧
    (flush_found db ps).albums = db.albums ∧
    (flush_found db ps).trackArtists = db.trackArtists ∧
    (flush_found db ps).albumArtists = db.albumArtists ∧
    (flush_found db ps).libraryRoots = db.libraryRoots ∧
    (flush_found db ps).nextId = db.nextId :=
  ⟨rfl, rfl, rfl, rfl, rfl, rfl, rfl⟩

theorem upsert_track_outer_frame (db : DB) (pt : PendingTrack) :
    (upsert_track db pt).scanFound = db.scanFound ∧
    (upsert_track db pt).libraryRoots = db.libraryRoots ∧
    (upsert_track db pt).artists = db.artists ∧
    (upsert_track db pt).albums = db.albums ∧
    (upsert_track db pt).albumArtists = db.albumArtists := by
  refine ⟨?_, ?_, ?_, ?_, ?_⟩ <;> simp [upsert_track]

theorem flush_tracks_outer_frame (pts : List PendingTrack) (db : DB) :
    (flush_tracks db pts).scanFound = db.scanFound ∧
    (flush_tracks db pts).libraryRoots = db.libraryRoots := by
  induction pts generalizing db with
  | nil => exact ⟨rfl, rfl⟩
  | cons pt rest ih =>
    obtain ⟨h1, h2, _, _, _⟩ := upsert_track_outer_frame db pt
    have := ih (upsert_track db pt)
    exact ⟨this.1.trans h1, this.2.trans h2⟩

/-! ## The path-mtime projection of the tracks table -/

def pmOf (l : List TrackRow) : List (String × Int) := l.map (fun t => (t.path, t.mtime))

/-- The effect of the upsert on the (path, mtime) projection. -/
def upsertPM (s : List (String × Int)) (x : String × Int) : List (String × Int) :=
  if s.any (fun e => e.1 == x.1) then s.map (fun e => if e.1 == x.1 then (e.1, x.2) else e)
  else s ++ [x]

theorem pmOf_upsert_track (db : DB) (pt : PendingTrack) :
    pmOf (upsert_track db pt).tracks = upsertPM (pmOf db.tracks) (pt.path, pt.mtime) := by
  have hany : (pmOf db.tracks).any (fun e => e.1 == pt.path)
      = db.tracks.any (fun t => t.path == pt.path) := by
    unfold pmOf
    induction db.tracks with
    | nil => rfl
    | cons a t ih => simp [List.any_cons, ih]
  simp only [upsert_track, upsertPM, hany]
  by_cases h : db.tracks.any (fun t => t.path == pt.path)
  · rw [if_pos h, if_pos h]
    unfold pmOf
    rw [List.map_map, List.map_map]
    apply List.map_congr_left
    intro t _
    show (fun t : TrackRow => (t.path, t.mtime)) (updFn pt (pt.artistIds.head?.getD "") t)
      = if ((fun t : TrackRow => (t.path, t.mtime)) t).1 == pt.path
        then (((fun t : TrackRow => (t.path, t.mtime)) t).1, pt.mtime)
        else (fun t : TrackRow => (t.path, t.mtime)) t
    simp only []
    unfold updFn
    by_cases hp : t.path == pt.path
    · rw [if_pos hp, if_pos hp]
    · rw [if_neg hp, if_neg hp]
  · rw [if_neg h, if_neg h]
    unfold pmOf
    rw [List.map_append]
    rfl

theorem pmOf_flush_tracks (pts : List PendingTrack) (db : DB) :
    pmOf (flush_tracks db pts).tracks
      = List.foldl upsertPM (pmOf db.tracks) (pts.map (fun pt => (pt.path, pt.mtime))) := by
  induction pts generalizing db with
  | nil => rfl
  | cons pt rest ih =>
    show pmOf (flush_tracks (upsert_track db pt) rest).tracks = _
    rw [ih (upsert_track db pt), pmOf_upsert_track]
    rfl

/-! ## The consumer run, summarized by its effect on tracks and found paths -/

def msgPath : ScanResult → String
  | .found p => p
  | .new p _ _ => p

def newPMs (msgs : List ScanResult) : List (String × Int) :=
  msgs.filterMap (fun m => match m with
    | .new p _ mt => some (p, mt)
    | .found _ => none)

/-- The (path, mtime) projection the consumer state reaches once its
pending track batch is flushed. -/
def effPM (c : CState) : List (String × Int) :=
  List.foldl upsertPM (pmOf c.db.tracks) (c.pendingTracks.map (fun pt => (pt.path, pt.mtime)))

/-- The scan_found list the consumer state reaches once its pending
found batch is flushed. -/
def effFound (c : CState) : List String :=
  List.foldl insertFoundPath c.db.scanFound c.pendingFound

theorem pushAndFlush_eff (c : CState) (dbs : DB) (store2 : CoverStore)
    (aC bC : List (String × String)) (item : PendingTrack)
    (htr : dbs.tracks = c.db.tracks) (hsf : dbs.scanFound = c.db.scanFound)
    (hlr : dbs.libraryRoots = c.db.libraryRoots) :
    effPM (pushAndFlush c dbs store2 aC bC item) = upsertPM (effPM c) (item.path, item.mtime) ∧
    effFound (pushAndFlush c dbs store2 aC bC item) = insertFoundPath (effFound c) item.path ∧
    (pushAndFlush c dbs store2 aC bC item).db.libraryRoots = c.db.libraryRoots := by
  have hpm : List.foldl upsertPM (pmOf dbs.tracks)
      ((c.pendingTracks ++ [item]).map (fun pt => (pt.path, pt.mtime)))
      = upsertPM (effPM c) (item.path, item.mtime) := by
    rw [htr, List.map_append, List.foldl_append]
    rfl
  have hfd : List.foldl insertFoundPath dbs.scanFound (c.pendingFound ++ [item.path])
      = insertFoundPath (effFound c) item.path := by
    rw [hsf, List.foldl_append]
    rfl
  have hy := flush_tracks_outer_frame (c.pendingTracks ++ [item]) dbs
  simp only [pushAndFlush]
  by_cases h1 : BATCH_SIZE ≤ (c.pendingTracks ++ [item]).length
  · by_cases h2 : BATCH_SIZE * 5 ≤ (c.pendingFound ++ [item.path]).length
    · rw [if_pos h1, if_pos h2]
      refine ⟨(pmOf_flush_tracks _ dbs).trans hpm, ?_, hy.2.trans hlr⟩
      show List.foldl insertFoundPath
        (flush_tracks dbs (c.pendingTracks ++ [item])).scanFound
        (c.pendingFound ++ [item.path]) = _
      rw [hy.1]
      exact hfd
    · rw [if_pos h1, if_neg h2]
      refine ⟨(pmOf_flush_tracks _ dbs).trans hpm, ?_, hy.2.trans hlr⟩
      show List.foldl insertFoundPath
        (flush_tracks dbs (c.pendingTracks ++ [item])).scanFound
        (c.pendingFound ++ [item.path]) = _
      rw [hy.1]
      exact hfd
  · by_cases h2 : BATCH_SIZE * 5 ≤ (c.pendingFound ++ [item.path]).length
    · rw [if_neg h1, if_pos h2]
      exact ⟨hpm, hfd, hlr⟩
    · rw [if_neg h1, if_neg h2]
      exact ⟨hpm, hfd, hlr⟩

theorem consumerStep_tail_eff (c : CState) (p : String) (meta : ParsedMetadata) (mt : Int)
    (dbx : DB) (aC : List (String × String)) (idsx : List String) (first : String)
    (c1 : CState)
    (htr : dbx.tracks = c.db.tracks) (hsf : dbx.scanFound = c.db.scanFound)
    (hlr : dbx.libraryRoots = c.db.libraryRoots)
    (h : (let album_artist_name := meta.albumArtist.getD first
          let (album_artist_id, db) := resolve_artist_single dbx album_artist_name
          let album_key := album_artist_id ++ "::" ++ meta.album
          let (album_id, db, store, bCache) :=
            match c.albumCache.find? (fun e => e.1 == album_key) with
            | some e => (e.2, db, c.store, c.albumCache)
            | none =>
              let (id, db, store) :=
                resolve_album db c.store meta.album album_artist_id idsx meta.coverImage
              (id, db, store, c.albumCache ++ [(album_key, id)])
          some (pushAndFlush c db store aC bCache ⟨p, meta, idsx, album_id, mt⟩))
        = some c1) :
    effPM c1 = upsertPM (effPM c) (p, mt) ∧
    effFound c1 = insertFoundPath (effFound c) p ∧
    c1.db.libraryRoots = c.db.libraryRoots := by
  rcases haa : resolve_artist_single dbx (meta.albumArtist.getD first) with ⟨aaid, db3⟩
  have hf3 := resolve_artist_single_frame dbx (meta.albumArtist.getD first)
  rw [haa] at hf3
  simp only [haa] at h
  rcases hac : c.albumCache.find? (fun e => e.1 == aaid ++ "::" ++ meta.album) with _ | e
  · simp only [hac] at h
    rcases hral : resolve_album db3 c.store meta.album aaid idsx meta.coverImage
      with ⟨aid2, db4, st4⟩
    have hf4 := resolve_album_frame db3 c.store meta.album aaid idsx meta.coverImage
    rw [hral] at hf4
    simp only [hral] at h
    injection h with h2
    subst h2
    exact pushAndFlush_eff c db4 st4 aC
      (c.albumCache ++ [(aaid ++ "::" ++ meta.album, aid2)]) ⟨p, meta, idsx, aid2, mt⟩
      (hf4.1.trans (hf3.1.trans htr))
      (hf4.2.1.trans (hf3.2.1.trans hsf))
      (hf4.2.2.trans (hf3.2.2.trans hlr))
  · simp only [hac] at h
    injection h with h2
    subst h2
    exact pushAndFlush_eff c db3 c.store aC c.albumCache ⟨p, meta, idsx, e.2, mt⟩
      (hf3.1.trans htr) (hf3.2.1.trans hsf) (hf3.2.2.trans hlr)

theorem consumerStep_eff (c : CState) (msg : ScanResult) (c1 : CState)
    (h : consumerStep c msg = some c1) :
    effPM c1 = (match msg with
      | .new p _ mt => upsertPM (effPM c) (p, mt)
      | .found _ => effPM c) ∧
    effFound c1 = insertFoundPath (effFound c) (msgPath msg) ∧
    c1.db.libraryRoots = c.db.libraryRoots := by
  cases msg with
  | found p =>
    simp only [consumerStep] at h
    split at h
    · injection h with h2
      subst h2
      refine ⟨rfl, ?_, rfl⟩
      show List.foldl insertFoundPath c.db.scanFound (c.pendingFound ++ [p]) = _
      rw [List.foldl_append]
      rfl
    · injection h with h2
      subst h2
      refine ⟨rfl, ?_, rfl⟩
      show List.foldl insertFoundPath c.db.scanFound (c.pendingFound ++ [p]) = _
      rw [List.foldl_append]
      rfl
  | new p meta mt =>
    simp only [consumerStep] at h
    rcases hra : resolveTrackArtists c.db c.artistCache meta.artists with ⟨db1, aC, ids0⟩
    have hf1 := resolveTrackArtists_frame meta.artists c.db c.artistCache
    rw [hra] at hf1
    simp only [hra] at h
    cases hhd : meta.artists.head? with
    | none =>
      by_cases hemp : ids0.isEmpty
      · rcases hsu : resolve_artist_single db1 "Unknown Artist" with ⟨uaid, db2⟩
        simp only [hemp, if_true, hsu, hhd] at h
        exact Option.noConfusion h
      · simp only [if_neg hemp, hhd] at h
        exact Option.noConfusion h
    | some first =>
      by_cases hemp : ids0.isEmpty
      · rcases hsu : resolve_artist_single db1 "Unknown Artist" with ⟨uaid, db2⟩
        have hf2 := resolve_artist_single_frame db1 "Unknown Artist"
        rw [hsu] at hf2
        simp only [hemp, if_true, hsu, hhd] at h
        exact consumerStep_tail_eff c p meta mt db2 aC [uaid] first c1
          (hf2.1.trans hf1.1) (hf2.2.1.trans hf1.2.1) (hf2.2.2.trans hf1.2.2) h
      · simp only [if_neg hemp, hhd] at h
        exact consumerStep_tail_eff c p meta mt db1 aC ids0 first c1
          hf1.1 hf1.2.1 hf1.2.2 h

theorem runConsumer_eff (msgs : List ScanResult) (c c1 : CState)
    (h : runConsumer c msgs = some c1) :
    effPM c1 = List.foldl upsertPM (effPM c) (newPMs msgs) ∧
    effFound c1 = List.foldl insertFoundPath (effFound c) (msgs.map msgPath) ∧
    c1.db.libraryRoots = c.db.libraryRoots := by
  induction msgs generalizing c with
  | nil =>
    simp only [runConsumer] at h
    injection h with h2
    subst h2
    exact ⟨rfl, rfl, rfl⟩
  | cons msg rest ih =>
    simp only [runConsumer] at h
    cases hstep : consumerStep c msg with
    | none =>
      rw [hstep] at h
      exact Option.noConfusion h
    | some c2 =>
      rw [hstep] at h
      obtain ⟨e1, e2, e3⟩ := consumerStep_eff c msg c2 hstep
      obtain ⟨f1, f2, f3⟩ := ih c2 h
      refine ⟨?_, ?_, f3.trans e3⟩
      · rw [f1, e1]
        cases msg <;> rfl
      · rw [f2, e2]
        cases msg <;> rfl

theorem finishConsumer_eq (c : CState) :
    finishConsumer c
      = (flush_found (flush_tracks c.db c.pendingTracks) c.pendingFound, c.store) := by
  simp only [finishConsumer]
  by_cases h1 : c.pendingTracks.isEmpty
  · rw [if_pos h1, List.isEmpty_iff.mp h1]
    by_cases h2 : c.pendingFound.isEmpty
    · rw [if_pos h2, List.isEmpty_iff.mp h2]
      rfl
    · rw [if_neg h2]
      rfl
  · rw [if_neg h1]
    by_cases h2 : c.pendingFound.isEmpty
    · rw [if_pos h2, List.isEmpty_iff.mp h2]
      rfl
    · rw [if_neg h2]

theorem finishConsumer_eff (c : CState) :
    pmOf (finishConsumer c).1.tracks = effPM c ∧
    (finishConsumer c).1.scanFound = effFound c ∧
    (finishConsumer c).1.libraryRoots = c.db.libraryRoots ∧
    (finishConsumer c).2 = c.store := by
  rw [finishConsumer_eq]
  refine ⟨pmOf_flush_tracks _ _, ?_, (flush_tracks_outer_frame _ _).2, rfl⟩
  show List.foldl insertFoundPath (flush_tracks c.db c.pendingTracks).scanFound
    c.pendingFound = _
  rw [(flush_tracks_outer_frame c.pendingTracks c.db).1]
  rfl

/-! ## The whole-scan effect on tracks and found paths -/

def allFiles (fs : FileSystem) (roots : List String) : List FsFile :=
  roots.flatMap (fun r => filesOfRoot fs r)

theorem walkMsgs_append (em : List TrackRow) (l1 l2 : List FsFile) :
    walkMsgs em (l1 ++ l2) = walkMsgs em l1 ++ walkMsgs em l2 :=
  List.filterMap_append l1 l2 _

theorem newPMs_append (m1 m2 : List ScanResult) :
    newPMs (m1 ++ m2) = newPMs m1 ++ newPMs m2 :=
  List.filterMap_append m1 m2 _

theorem scan_path_eff (db : DB) (store : CoverStore) (em : List TrackRow)
    (files : List FsFile) (db1 : DB) (store1 : CoverStore)
    (h : scan_path db store em files = some (db1, store1)) :
    pmOf db1.tracks = List.foldl upsertPM (pmOf db.tracks) (newPMs (walkMsgs em files)) ∧
    db1.scanFound = List.foldl insertFoundPath db.scanFound ((walkMsgs em files).map msgPath) ∧
    db1.libraryRoots = db.libraryRoots := by
  unfold scan_path at h
  cases hrun : runConsumer ⟨db, store, [], [], [], []⟩ (walkMsgs em files) with
  | none =>
    rw [hrun] at h
    exact Option.noConfusion h
  | some cF =>
    rw [hrun] at h
    obtain ⟨e1, e2, e3⟩ := runConsumer_eff _ _ _ hrun
    obtain ⟨g1, g2, g3, g4⟩ := finishConsumer_eff cF
    injection h with h2
    have hdb : (finishConsumer cF).1 = db1 := congrArg Prod.fst h2
    have hst : (finishConsumer cF).2 = store1 := congrArg Prod.snd h2
    refine ⟨?_, ?_, ?_⟩
    · rw [← hdb, g1, e1]
      rfl
    · rw [← hdb, g2, e2]
      rfl
    · rw [← hdb, g3, e3]

theorem scanRoots_eff (fs : FileSystem) (em : List TrackRow) (roots : List String)
    (db : DB) (store : CoverStore) (db1 : DB) (store1 : CoverStore)
    (h : scanRoots fs em db store roots = some (db1, store1)) :
    pmOf db1.tracks = List.foldl upsertPM (pmOf db.tracks)
      (newPMs (walkMsgs em (allFiles fs roots))) ∧
    db1.scanFound = List.foldl insertFoundPath db.scanFound
      ((walkMsgs em (allFiles fs roots)).map msgPath) ∧
    db1.libraryRoots = db.libraryRoots := by
  induction roots generalizing db store with
  | nil =>
    simp only [scanRoots] at h
    injection h with h2
    injection h2 with ha hb
    subst ha
    exact ⟨rfl, rfl, rfl⟩
  | cons r roots ih =>
    simp only [scanRoots] at h
    cases hsp : scan_path db store em (filesOfRoot fs r) with
    | none =>
      rw [hsp] at h
      exact Option.noConfusion h
    | some pr =>
      simp only [hsp] at h
      obtain ⟨a1, a2, a3⟩ := scan_path_eff db store em (filesOfRoot fs r) pr.1 pr.2
        (by rw [hsp])
      obtain ⟨b1, b2, b3⟩ := ih pr.1 pr.2 h
      have hsplit : walkMsgs em (allFiles fs (r :: roots))
          = walkMsgs em (filesOfRoot fs r) ++ walkMsgs em (allFiles fs roots) := by
        show walkMsgs em ((r :: roots).flatMap (fun x => filesOfRoot fs x)) = _
        rw [List.flatMap_cons]
        exact walkMsgs_append em _ _
      refine ⟨?_, ?_, b3.trans a3⟩
      · rw [b1, a1, hsplit, newPMs_append, List.foldl_append]
      · rw [b2, a2, hsplit, List.map_append, List.foldl_append]

theorem scanCore_eff (fs : FileSystem) (db : DB) (store : CoverStore)
    (mid : DB) (store1 : CoverStore)
    (h : scanCore fs db store = some (mid, store1)) :
    pmOf mid.tracks = List.foldl upsertPM (pmOf db.tracks)
      (newPMs (walkMsgs db.tracks (allFiles fs db.libraryRoots))) ∧
    mid.scanFound = List.foldl insertFoundPath []
      ((walkMsgs db.tracks (allFiles fs db.libraryRoots)).map msgPath) ∧
    mid.libraryRoots = db.libraryRoots := by
  unfold scanCore at h
  exact scanRoots_eff fs db.tracks db.libraryRoots { db with scanFound := [] } store mid store1 h

/-! ## Last-match lookup on (path, mtime) lists -/

/-- Last-match lookup: the pure counterpart of the `path → mtime`
HashMap, on which later entries overwrite earlier ones. -/
def lookupPM : List (String × Int) → String → Option Int
  | [], _ => none
  | e :: s, p =>
    match lookupPM s p with
    | some m => some m
    | none => if e.1 == p then some e.2 else none

theorem lookupPM_eq_find (s : List (String × Int)) (p : String) :
    lookupPM s p = (s.reverse.find? (fun e => e.1 == p)).map (fun e => e.2) := by
  induction s with
  | nil => rfl
  | cons e s ih =>
    show (match lookupPM s p with
      | some m => some m
      | none => if e.1 == p then some e.2 else none) = _
    rw [List.reverse_cons, List.find?_append, ih]
    cases hfind : s.reverse.find? (fun x => x.1 == p) with
    | some a => rfl
    | none =>
      by_cases h : (e.1 == p) = true
      · rw [@List.find?_cons_of_pos _ (fun q : String × Int => q.1 == p) e [] h, if_pos h]
        rfl
      · rw [@List.find?_cons_of_neg _ (fun q : String × Int => q.1 == p) e [] h, if_neg h]
        rfl

theorem lookupMtime_pm (l : List TrackRow) (p : String) :
    lookupMtime l p = lookupPM (pmOf l) p := by
  rw [lookupPM_eq_find]
  show (l.reverse.find? (fun t => t.path == p)).map (fun t => t.mtime)
    = ((pmOf l).reverse.find? (fun e => e.1 == p)).map (fun e => e.2)
  unfold pmOf
  rw [← List.map_reverse, List.find?_map, Option.map_map]
  rfl

theorem lookupPM_append (s : List (String × Int)) (x : String × Int) (p : String) :
    lookupPM (s ++ [x]) p = if x.1 == p then some x.2 else lookupPM s p := by
  induction s with
  | nil => rfl
  | cons e s ih =>
    show (match lookupPM (s ++ [x]) p with
      | some m => some m
      | none => if e.1 == p then some e.2 else none) = _
    rw [ih]
    by_cases hx : (x.1 == p) = true
    · rw [if_pos hx, if_pos hx]
    · rw [if_neg hx, if_neg hx]
      rfl

theorem lookupPM_map_upd (s : List (String × Int)) (x : String × Int) (p : String) :
    lookupPM (s.map (fun e => if e.1 == x.1 then (e.1, x.2) else e)) p
      = if x.1 == p then (if s.any (fun e => e.1 == x.1) then some x.2 else none)
        else lookupPM s p := by
  induction s with
  | nil => cases hx : x.1 == p <;> simp [lookupPM, hx]
  | cons e s ih =>
    show (match lookupPM (s.map (fun e => if e.1 == x.1 then (e.1, x.2) else e)) p with
      | some m => some m
      | none => if (if e.1 == x.1 then (e.1, x.2) else e).1 == p
          then some (if e.1 == x.1 then (e.1, x.2) else e).2 else none)
      = if x.1 == p then (if (e :: s).any (fun e => e.1 == x.1) then some x.2 else none)
        else lookupPM (e :: s) p
    rw [ih]
    cases he : e.1 == x.1 with
    | true =>
      have hee : e.1 = x.1 := eq_of_beq he
      cases hx : x.1 == p with
      | true =>
        have hep : (e.1 == p) = true := by
          rw [hee]
          exact hx
        cases hany : s.any (fun e => e.1 == x.1) with
        | true => simp [he, hx, hany]
        | false => simp [he, hx, hany, hep]
      | false =>
        have hep : (e.1 == p) = false := by
          rw [hee]
          exact hx
        simp [he, hx, hep, lookupPM]
    | false =>
      cases hx : x.1 == p with
      | true =>
        cases hany : s.any (fun e => e.1 == x.1) with
        | true => simp [he, hx, hany]
        | false =>
          have hep : (e.1 == p) = false := by
            apply beq_eq_false_iff_ne.mpr
            intro hc
            rw [hc, eq_of_beq hx] at he
            rw [beq_self_eq_true] at he
            exact Bool.noConfusion he
          simp [he, hx, hany, hep]
      | false => simp [he, hx, lookupPM]

theorem lookupPM_upsert (s : List (String × Int)) (x : String × Int) (p : String) :
    lookupPM (upsertPM s x) p = if x.1 == p then some x.2 else lookupPM s p := by
  unfold upsertPM
  by_cases hany : (s.any (fun e => e.1 == x.1)) = true
  · rw [if_pos hany, lookupPM_map_upd, hany]
    simp
  · rw [if_neg hany, lookupPM_append]

theorem lookupPM_foldl (xs : List (String × Int)) (s : List (String × Int)) (p : String) :
    lookupPM (List.foldl upsertPM s xs) p = (lookupPM xs p).or (lookupPM s p) := by
  induction xs generalizing s with
  | nil => rfl
  | cons x xs ih =>
    show lookupPM (List.foldl upsertPM (upsertPM s x) xs) p = _
    rw [ih, lookupPM_upsert]
    cases hxs : lookupPM xs p with
    | some m =>
      show _ = ((match lookupPM xs p with
        | some m => some m
        | none => if x.1 == p then some x.2 else none).or (lookupPM s p))
      rw [hxs]
      rfl
    | none =>
      show _ = ((match lookupPM xs p with
        | some m => some m
        | none => if x.1 == p then some x.2 else none).or (lookupPM s p))
      rw [hxs]
      by_cases hx : (x.1 == p) = true
      · rw [if_pos hx, if_pos hx]
        rfl
      · rw [if_neg hx, if_neg hx]

theorem lookupPM_eq_none (s : List (String × Int)) (p : String)
    (h : ∀ e ∈ s, (e.1 == p) = false) : lookupPM s p = none := by
  induction s with
  | nil => rfl
  | cons e s ih =>
    show (match lookupPM s p with
      | some m => some m
      | none => if e.1 == p then some e.2 else none) = none
    rw [ih (fun x hx => h x (List.mem_cons_of_mem e hx)),
        if_neg (by rw [h e (List.mem_cons_self e s)]; exact Bool.false_ne_true)]

theorem lookupPM_none_of_not_mem (s : List (String × Int)) (p : String)
    (h : p ∉ s.map (fun e => e.1)) : lookupPM s p = none := by
  apply lookupPM_eq_none
  intro e he
  apply beq_eq_false_iff_ne.mpr
  intro hc
  exact h (List.mem_map.mpr ⟨e, he, hc⟩)

theorem lookupPM_filter_pos (F : List String) (s : List (String × Int)) (p : String)
    (h : F.contains p = true) :
    lookupPM (s.filter (fun e => F.contains e.1)) p = lookupPM s p := by
  induction s with
  | nil => rfl
  | cons e s ih =>
    rw [List.filter_cons]
    by_cases he : (F.contains e.1) = true
    · rw [if_pos (by exact he)]
      show (match lookupPM (s.filter (fun e => F.contains e.1)) p with
        | some m => some m
        | none => if e.1 == p then some e.2 else none) = _
      rw [ih]
      rfl
    · rw [if_neg (by exact he)]
      rw [ih]
      show _ = (match lookupPM s p with
        | some m => some m
        | none => if e.1 == p then some e.2 else none)
      cases lookupPM s p with
      | some m => rfl
      | none =>
        have hep : (e.1 == p) = false := by
          apply beq_eq_false_iff_ne.mpr
          intro hc
          rw [hc, h] at he
          exact he rfl
        rw [if_neg (by rw [hep]; exact Bool.false_ne_true)]

theorem lookupPM_filter_neg (F : List String) (s : List (String × Int)) (p : String)
    (h : F.contains p = false) :
    lookupPM (s.filter (fun e => F.contains e.1)) p = none := by
  induction s with
  | nil => rfl
  | cons e s ih =>
    rw [List.filter_cons]
    by_cases he : (F.contains e.1) = true
    · rw [if_pos (by exact he)]
      show (match lookupPM (s.filter (fun e => F.contains e.1)) p with
        | some m => some m
        | none => if e.1 == p then some e.2 else none) = none
      rw [ih]
      have hep : (e.1 == p) = false := by
        apply beq_eq_false_iff_ne.mpr
        intro hc
        rw [hc, h] at he
        exact Bool.noConfusion he
      rw [if_neg (by rw [hep]; exact Bool.false_ne_true)]
    · rw [if_neg (by exact he)]
      exact ih

theorem lookupPM_of_mem_nodup (s : List (String × Int)) (p : String) (m : Int)
    (hnd : (s.map (fun e => e.1)).Nodup) (hm : (p, m) ∈ s) : lookupPM s p = some m := by
  induction s with
  | nil => exact absurd hm (List.not_mem_nil _)
  | cons e s ih =>
    show (match lookupPM s p with
      | some m => some m
      | none => if e.1 == p then some e.2 else none) = some m
    rw [List.map_cons, List.nodup_cons] at hnd
    rcases List.mem_cons.mp hm with he | hs
    · subst he
      rw [lookupPM_none_of_not_mem s p hnd.1, if_pos (beq_self_eq_true p)]
    · rw [ih hnd.2 hs]

/-! ## Per-file facts about the walk classification -/

theorem classify_some (em : List TrackRow) (f : FsFile) (msg : ScanResult)
    (h : (classifyFile em f).1 = some msg) :
    isAudioFile f = true ∧ msgPath msg = f.path := by
  unfold classifyFile at h
  by_cases ha : isAudioFile f = true
  · refine ⟨ha, ?_⟩
    rw [if_pos ha] at h
    by_cases hm : (lookupMtime em f.path == some f.mtime) = true
    · rw [if_pos hm] at h
      injection h with h2
      rw [← h2]
      rfl
    · rw [if_neg hm] at h
      cases hp : parse_metadata f with
      | some meta =>
        rw [hp] at h
        injection h with h2
        rw [← h2]
        rfl
      | none =>
        rw [hp] at h
        exact Option.noConfusion h
  · rw [if_neg ha] at h
    exact Option.noConfusion h

/-- Inversion of `classifyFile` into its four outcome shapes. -/
theorem classify_inv (em : List TrackRow) (f : FsFile) :
    (isAudioFile f = false ∧ (classifyFile em f).1 = none) ∨
    (isAudioFile f = true ∧ (lookupMtime em f.path == some f.mtime) = true ∧
      (classifyFile em f).1 = some (.found f.path)) ∨
    (isAudioFile f = true ∧ (lookupMtime em f.path == some f.mtime) = false ∧
      ∃ meta, parse_metadata f = some meta ∧
        (classifyFile em f).1 = some (.new f.path meta f.mtime)) ∨
    (isAudioFile f = true ∧ (lookupMtime em f.path == some f.mtime) = false ∧
      parse_metadata f = none ∧ (classifyFile em f).1 = none) := by
  by_cases ha : isAudioFile f = true
  · by_cases hm : (lookupMtime em f.path == some f.mtime) = true
    · exact Or.inr (Or.inl ⟨ha, hm, by simp [classifyFile, ha, hm]⟩)
    · cases hp : parse_metadata f with
      | some meta =>
        exact Or.inr (Or.inr (Or.inl ⟨ha, Bool.of_not_eq_true hm,
          ⟨meta, rfl, by simp [classifyFile, ha, hm, hp]⟩⟩))
      | none =>
        exact Or.inr (Or.inr (Or.inr ⟨ha, Bool.of_not_eq_true hm, rfl,
          by simp [classifyFile, ha, hm, hp]⟩))
  · exact Or.inl ⟨Bool.of_not_eq_true ha, by simp [classifyFile, ha]⟩

theorem mem_walkMsgs_iff (em : List TrackRow) (files : List FsFile) (msg : ScanResult) :
    msg ∈ walkMsgs em files ↔ ∃ f, f ∈ files ∧ (classifyFile em f).1 = some msg := by
  unfold walkMsgs
  exact List.mem_filterMap

theorem walkMsgs_sublist_audio (em : List TrackRow) (files : List FsFile) :
    List.Sublist ((walkMsgs em files).map msgPath)
      ((files.filter (fun f => isAudioFile f)).map (fun f => f.path)) := by
  induction files with
  | nil => exact List.Sublist.refl []
  | cons f fs ih =>
    cases hc : (classifyFile em f).1 with
    | none =>
      have h1 : walkMsgs em (f :: fs) = walkMsgs em fs := by
        simp [walkMsgs, List.filterMap_cons, hc]
      rw [h1, List.filter_cons]
      by_cases ha : (isAudioFile f) = true
      · rw [if_pos (by exact ha), List.map_cons]
        exact List.Sublist.cons f.path ih
      · rw [if_neg (by exact ha)]
        exact ih
    | some msg =>
      obtain ⟨ha, hp⟩ := classify_some em f msg hc
      have h1 : walkMsgs em (f :: fs) = msg :: walkMsgs em fs := by
        simp [walkMsgs, List.filterMap_cons, hc]
      rw [h1, List.filter_cons, if_pos (by exact ha), List.map_cons, List.map_cons, hp]
      exact List.Sublist.cons₂ f.path ih

theorem newPMs_paths_sublist (msgs : List ScanResult) :
    List.Sublist ((newPMs msgs).map (fun e => e.1)) (msgs.map msgPath) := by
  induction msgs with
  | nil => exact List.Sublist.refl []
  | cons m ms ih =>
    cases m with
    | found p =>
      show List.Sublist ((newPMs ms).map (fun e => e.1)) (p :: ms.map msgPath)
      exact List.Sublist.cons p ih
    | new p meta mt =>
      show List.Sublist (p :: (newPMs ms).map (fun e => e.1)) (p :: ms.map msgPath)
      exact List.Sublist.cons₂ p ih

theorem mem_newPMs (msgs : List ScanResult) (p : String) (meta : ParsedMetadata) (mt : Int)
    (h : ScanResult.new p meta mt ∈ msgs) : (p, mt) ∈ newPMs msgs := by
  unfold newPMs
  exact List.mem_filterMap.mpr ⟨ScanResult.new p meta mt, h, rfl⟩

theorem mem_newPMs_inv (msgs : List ScanResult) (q : String × Int)
    (h : q ∈ newPMs msgs) : ∃ meta, ScanResult.new q.1 meta q.2 ∈ msgs := by
  unfold newPMs at h
  obtain ⟨msg, hmem, heq⟩ := List.mem_filterMap.mp h
  cases msg with
  | found p => exact Option.noConfusion heq
  | new p meta mt =>
    injection heq with h2
    rw [← h2]
    exact ⟨meta, hmem⟩

/-! ## Membership in the accumulated found set -/

theorem insertFoundPath_mem (l : List String) (p q : String) :
    q ∈ insertFoundPath l p ↔ q ∈ l ∨ q = p := by
  unfold insertFoundPath
  by_cases h : p ∈ l
  · rw [if_pos h]
    constructor
    · exact fun hq => Or.inl hq
    · rintro (hq | rfl)
      · exact hq
      · exact h
  · rw [if_neg h]
    simp [List.mem_append]

theorem foldl_insertFoundPath_mem (ps : List String) (l : List String) (q : String) :
    q ∈ List.foldl insertFoundPath l ps ↔ q ∈ l ∨ q ∈ ps := by
  induction ps generalizing l with
  | nil => simp
  | cons p ps ih =>
    show q ∈ List.foldl insertFoundPath (insertFoundPath l p) ps ↔ _
    rw [ih, insertFoundPath_mem, List.mem_cons]
    exact or_assoc

theorem contains_iff_mem (l : List String) (a : String) : l.contains a = true ↔ a ∈ l :=
  List.elem_iff

/-! ## Path multiset facts of the upsert fold -/

theorem upsertPM_paths_map (s : List (String × Int)) (x : String × Int) :
    (s.map (fun e => if e.1 == x.1 then (e.1, x.2) else e)).map (fun e => e.1)
      = s.map (fun e => e.1) := by
  rw [List.map_map]
  apply List.map_congr_left
  intro e _
  show (if e.1 == x.1 then (e.1, x.2) else e).1 = e.1
  by_cases h : (e.1 == x.1) = true
  · rw [if_pos h]
  · rw [if_neg h]

theorem mem_paths_upsertPM (s : List (String × Int)) (x : String × Int) (q : String) :
    q ∈ (upsertPM s x).map (fun e => e.1) ↔ q ∈ s.map (fun e => e.1) ∨ q = x.1 := by
  unfold upsertPM
  by_cases hany : (s.any (fun e => e.1 == x.1)) = true
  · rw [if_pos hany, upsertPM_paths_map]
    constructor
    · exact fun hq => Or.inl hq
    · rintro (hq | rfl)
      · exact hq
      · obtain ⟨e, he, heq⟩ := List.any_eq_true.mp hany
        exact List.mem_map.mpr ⟨e, he, eq_of_beq heq⟩
  · rw [if_neg hany, List.map_append]
    simp [List.mem_append]

theorem paths_upsertPM_nodup (s : List (String × Int)) (x : String × Int)
    (h : (s.map (fun e => e.1)).Nodup) : ((upsertPM s x).map (fun e => e.1)).Nodup := by
  unfold upsertPM
  by_cases hany : (s.any (fun e => e.1 == x.1)) = true
  · rw [if_pos hany, upsertPM_paths_map]
    exact h
  · rw [if_neg hany, List.map_append]
    rw [List.nodup_append]
    refine ⟨h, List.nodup_singleton x.1, ?_⟩
    intro q hq hq1
    have hqx : q = x.1 := by simpa using hq1
    have : ∀ e ∈ s, (e.1 == x.1) = false := by
      intro e he
      cases hb : e.1 == x.1 with
      | false => rfl
      | true =>
        exact absurd (List.any_eq_true.mpr ⟨e, he, hb⟩) hany
    obtain ⟨e, he, heq⟩ := List.mem_map.mp hq
    rw [hqx] at heq
    have := this e he
    rw [heq] at this
    rw [beq_self_eq_true] at this
    exact Bool.noConfusion this

theorem paths_foldl_upsertPM_nodup (xs : List (String × Int)) (s : List (String × Int))
    (h : (s.map (fun e => e.1)).Nodup) :
    ((List.foldl upsertPM s xs).map (fun e => e.1)).Nodup := by
  induction xs generalizing s with
  | nil => exact h
  | cons x xs ih => exact ih (upsertPM s x) (paths_upsertPM_nodup s x h)

theorem mem_paths_foldl_upsertPM (xs : List (String × Int)) (s : List (String × Int))
    (q : String) :
    q ∈ (List.foldl upsertPM s xs).map (fun e => e.1)
      ↔ q ∈ s.map (fun e => e.1) ∨ q ∈ xs.map (fun e => e.1) := by
  induction xs generalizing s with
  | nil => simp
  | cons x xs ih =>
    show q ∈ (List.foldl upsertPM (upsertPM s x) xs).map (fun e => e.1) ↔ _
    rw [ih, mem_paths_upsertPM, List.map_cons, List.mem_cons]
    constructor
    · rintro ((hq | rfl) | hq)
      · exact Or.inl hq
      · exact Or.inr (Or.inl rfl)
      · exact Or.inr (Or.inr hq)
    · rintro (hq | (rfl | hq))
      · exact Or.inl (Or.inl hq)
      · exact Or.inl (Or.inr rfl)
      · exact Or.inr hq

theorem pmOf_filter (l : List TrackRow) (q : String → Bool) :
    pmOf (l.filter (fun t => q t.path)) = (pmOf l).filter (fun e => q e.1) := by
  unfold pmOf
  rw [List.filter_map]
  rfl

/-- Path-injectivity of a walk listing whose audio paths are distinct. -/
theorem audio_inj (files : List FsFile)
    (H2 : ((files.filter (fun f => isAudioFile f)).map (fun f => f.path)).Nodup)
    (f g : FsFile) (hf : f ∈ files) (hg : g ∈ files)
    (haf : isAudioFile f = true) (hag : isAudioFile g = true) (hpq : f.path = g.path) : f = g :=
  List.inj_on_of_nodup_map H2 (List.mem_filter.mpr ⟨hf, haf⟩)
    (List.mem_filter.mpr ⟨hg, hag⟩) hpq

/-! ## The walk over an in-sync catalog classifies every message-file as found -/

/-- After a scan whose walk produced `walkMsgs em files`, the surviving
tracks table `tr2` (upserts filtered by the found set) classifies every
walked file as `found` exactly where the first walk produced a message,
and skips it where the first walk produced none. -/
theorem classifyFile_second (em : List TrackRow) (files : List FsFile) (tr2 : List TrackRow)
    (H2 : ((files.filter (fun g => isAudioFile g)).map (fun g => g.path)).Nodup)
    (htr2 : pmOf tr2 = (List.foldl upsertPM (pmOf em) (newPMs (walkMsgs em files))).filter
      (fun e => (List.foldl insertFoundPath []
        ((walkMsgs em files).map msgPath)).contains e.1))
    (f : FsFile) (hf : f ∈ files) :
    (classifyFile tr2 f).1 = ((classifyFile em f).1).map (fun m => ScanResult.found (msgPath m))
    := by
  rcases classify_inv em f with ⟨hna, hc⟩ | ⟨ha, hm, hc⟩ | ⟨ha, hm, meta, hpar, hc⟩
    | ⟨ha, hm, hpar, hc⟩
  · rw [hc]
    simp [classifyFile, hna]
  · -- first walk: mtime matched, a found message was sent
    have hPmem : f.path ∈ (walkMsgs em files).map msgPath :=
      List.mem_map.mpr ⟨ScanResult.found f.path,
        (mem_walkMsgs_iff em files _).mpr ⟨f, hf, hc⟩, rfl⟩
    have hnotpms : f.path ∉ (newPMs (walkMsgs em files)).map (fun e => e.1) := by
      intro hq
      obtain ⟨e, he, heq⟩ := List.mem_map.mp hq
      obtain ⟨meta, hmsg⟩ := mem_newPMs_inv _ e he
      obtain ⟨g, hg, hcg⟩ := (mem_walkMsgs_iff em files _).mp hmsg
      obtain ⟨hag, hpg⟩ := classify_some em g _ hcg
      have hgf : g = f := audio_inj files H2 g f hg hf hag ha (by rw [← hpg, ← heq]; rfl)
      rw [hgf, hc] at hcg
      injection hcg with h2
      exact ScanResult.noConfusion h2
    have hFc : (List.foldl insertFoundPath []
        ((walkMsgs em files).map msgPath)).contains f.path = true :=
      (contains_iff_mem _ _).mpr ((foldl_insertFoundPath_mem _ _ _).mpr (Or.inr hPmem))
    have key : lookupMtime tr2 f.path = some f.mtime := by
      rw [lookupMtime_pm, htr2, lookupPM_filter_pos _ _ _ hFc, lookupPM_foldl,
          lookupPM_none_of_not_mem _ _ hnotpms]
      show lookupPM (pmOf em) f.path = some f.mtime
      rw [← lookupMtime_pm]
      exact eq_of_beq hm
    rw [hc]
    simp [classifyFile, ha, key, msgPath]
  · -- first walk: a new-track message was sent; the upsert recorded its mtime
    have hmsg : ScanResult.new f.path meta f.mtime ∈ walkMsgs em files :=
      (mem_walkMsgs_iff em files _).mpr ⟨f, hf, hc⟩
    have hPmem : f.path ∈ (walkMsgs em files).map msgPath :=
      List.mem_map.mpr ⟨ScanResult.new f.path meta f.mtime, hmsg, rfl⟩
    have hnd : ((newPMs (walkMsgs em files)).map (fun e => e.1)).Nodup :=
      List.Nodup.sublist ((newPMs_paths_sublist _).trans (walkMsgs_sublist_audio em files)) H2
    have hpms : lookupPM (newPMs (walkMsgs em files)) f.path = some f.mtime :=
      lookupPM_of_mem_nodup _ _ _ hnd (mem_newPMs _ _ _ _ hmsg)
    have hFc : (List.foldl insertFoundPath []
        ((walkMsgs em files).map msgPath)).contains f.path = true :=
      (contains_iff_mem _ _).mpr ((foldl_insertFoundPath_mem _ _ _).mpr (Or.inr hPmem))
    have key : lookupMtime tr2 f.path = some f.mtime := by
      rw [lookupMtime_pm, htr2, lookupPM_filter_pos _ _ _ hFc, lookupPM_foldl, hpms]
      rfl
    rw [hc]
    simp [classifyFile, ha, key, msgPath]
  · -- first walk: extraction failed, no message; the path stays unindexed
    have hnotP : f.path ∉ (walkMsgs em files).map msgPath := by
      intro hq
      obtain ⟨msg, hmsgmem, heq⟩ := List.mem_map.mp hq
      obtain ⟨g, hg, hcg⟩ := (mem_walkMsgs_iff em files _).mp hmsgmem
      obtain ⟨hag, hpg⟩ := classify_some em g _ hcg
      have hgf : g = f := audio_inj files H2 g f hg hf hag ha (by rw [← hpg, heq])
      rw [hgf, hc] at hcg
      exact Option.noConfusion hcg
    have hFc : (List.foldl insertFoundPath []
        ((walkMsgs em files).map msgPath)).contains f.path = false := by
      cases hb : (List.foldl insertFoundPath []
          ((walkMsgs em files).map msgPath)).contains f.path with
      | false => rfl
      | true =>
        rcases (foldl_insertFoundPath_mem _ _ _).mp ((contains_iff_mem _ _).mp hb) with
          hin | hin
        · exact absurd hin (List.not_mem_nil _)
        · exact absurd hin hnotP
    have key : lookupMtime tr2 f.path = none := by
      rw [lookupMtime_pm, htr2, lookupPM_filter_neg _ _ _ hFc]
    rw [hc]
    simp [classifyFile, ha, key, hpar]

/-- A second walk over a catalog left in sync by the first walk emits
exactly the found messages for the first walk's message paths. -/
theorem walkMsgs_second (em : List TrackRow) (files files2 : List FsFile) (tr2 : List TrackRow)
    (H2 : ((files.filter (fun g => isAudioFile g)).map (fun g => g.path)).Nodup)
    (htr2 : pmOf tr2 = (List.foldl upsertPM (pmOf em) (newPMs (walkMsgs em files))).filter
      (fun e => (List.foldl insertFoundPath []
        ((walkMsgs em files).map msgPath)).contains e.1))
    (hsub : ∀ f ∈ files2, f ∈ files) :
    walkMsgs tr2 files2 = ((walkMsgs em files2).map msgPath).map ScanResult.found := by
  unfold walkMsgs
  rw [List.map_filterMap, List.map_filterMap]
  apply List.filterMap_congr
  intro f hf
  have h := classifyFile_second em files tr2 H2 htr2 f (hsub f hf)
  rw [h]
  cases (classifyFile em f).1 with
  | none => rfl
  | some msg => rfl

/-! ## A consumer run that receives only found messages -/

theorem runConsumer_found (c : CState) (ps : List String) :
    ∃ c1, runConsumer c (ps.map ScanResult.found) = some c1 ∧
      c1.db.tracks = c.db.tracks ∧ c1.db.artists = c.db.artists ∧
      c1.db.albums = c.db.albums ∧ c1.db.trackArtists = c.db.trackArtists ∧
      c1.db.albumArtists = c.db.albumArtists ∧ c1.db.libraryRoots = c.db.libraryRoots ∧
      c1.db.nextId = c.db.nextId ∧ c1.store = c.store ∧
      c1.pendingTracks = c.pendingTracks ∧
      effFound c1 = List.foldl insertFoundPath (effFound c) ps := by
  induction ps generalizing c with
  | nil => exact ⟨c, rfl, rfl, rfl, rfl, rfl, rfl, rfl, rfl, rfl, rfl, rfl⟩
  | cons p ps ih =>
    obtain ⟨c2, hstep, f1, f2, f3, f4, f5, f6, f7, f8, _, _, f9⟩ :=
      consumerStep_found_frame c p
    obtain ⟨_, e2, _⟩ := consumerStep_eff c (.found p) c2 hstep
    obtain ⟨c1, hrun, g1, g2, g3, g4, g5, g6, g7, g8, g9, g10⟩ := ih c2
    refine ⟨c1, ?_, g1.trans f1, g2.trans f2, g3.trans f3, g4.trans f4, g5.trans f5,
      g6.trans f6, g7.trans f7, g8.trans f8, g9.trans f9, ?_⟩
    · show (match consumerStep c (.found p) with
        | none => none
        | some c' => runConsumer c' (ps.map ScanResult.found)) = some c1
      rw [hstep]
      exact hrun
    · rw [g10, e2]
      rfl

theorem scan_path_found (db : DB) (store : CoverStore) (em2 : List TrackRow)
    (files : List FsFile) (ps : List String)
    (hw : walkMsgs em2 files = ps.map ScanResult.found) :
    ∃ db1, scan_path db store em2 files = some (db1, store) ∧
      db1.tracks = db.tracks ∧ db1.artists = db.artists ∧ db1.albums = db.albums ∧
      db1.trackArtists = db.trackArtists ∧ db1.albumArtists = db.albumArtists ∧
      db1.libraryRoots = db.libraryRoots ∧ db1.nextId = db.nextId ∧
      db1.scanFound = List.foldl insertFoundPath db.scanFound ps := by
  unfold scan_path
  rw [hw]
  obtain ⟨c1, hrun, g1, g2, g3, g4, g5, g6, g7, g8, g9, g10⟩ :=
    runConsumer_found ⟨db, store, [], [], [], []⟩ ps
  rw [hrun]
  have hD : (finishConsumer c1).1 = flush_found c1.db c1.pendingFound := by
    rw [finishConsumer_eq, g9]
    rfl
  have hst : (finishConsumer c1).2 = store := by
    rw [finishConsumer_eq]
    exact g8
  refine ⟨(finishConsumer c1).1, ?_, ?_, ?_, ?_, ?_, ?_, ?_, ?_, ?_⟩
  · show some (finishConsumer c1) = some ((finishConsumer c1).1, store)
    rw [← hst]
  · rw [hD]
    exact g1
  · rw [hD]
    exact g2
  · rw [hD]
    exact g3
  · rw [hD]
    exact g4
  · rw [hD]
    exact g5
  · rw [hD]
    exact g6
  · rw [hD]
    exact g7
  · rw [hD]
    exact g10

theorem scanRoots_found (fs : FileSystem) (em2 : List TrackRow) (roots : List String)
    (db : DB) (store : CoverStore)
    (hw : ∀ r ∈ roots, ∃ ps : List String,
      walkMsgs em2 (filesOfRoot fs r) = ps.map ScanResult.found) :
    ∃ db1, scanRoots fs em2 db store roots = some (db1, store) ∧
      db1.tracks = db.tracks ∧ db1.artists = db.artists ∧ db1.albums = db.albums ∧
      db1.trackArtists = db.trackArtists ∧ db1.albumArtists = db.albumArtists ∧
      db1.libraryRoots = db.libraryRoots ∧ db1.nextId = db.nextId := by
  revert hw
  induction roots generalizing db store with
  | nil =>
    intro hw
    exact ⟨db, rfl, rfl, rfl, rfl, rfl, rfl, rfl, rfl⟩
  | cons r roots ih =>
    intro hw
    obtain ⟨ps, hps⟩ := hw r (List.mem_cons_self r roots)
    obtain ⟨dbm, hsp, a1, a2, a3, a4, a5, a6, a7, _⟩ :=
      scan_path_found db store em2 (filesOfRoot fs r) ps hps
    obtain ⟨db1, hrun, b1, b2, b3, b4, b5, b6, b7⟩ :=
      ih dbm store (fun r hr => hw r (List.mem_cons_of_mem _ hr))
    refine ⟨db1, ?_, b1.trans a1, b2.trans a2, b3.trans a3, b4.trans a4, b5.trans a5,
      b6.trans a6, b7.trans a7⟩
    show (match scan_path db store em2 (filesOfRoot fs r) with
      | none => none
      | some (db, store) => scanRoots fs em2 db store roots) = some (db1, store)
    rw [hsp]
    exact hrun

theorem dbExt (a b : DB) (h1 : a.artists = b.artists) (h2 : a.albums = b.albums)
    (h3 : a.tracks = b.tracks) (h4 : a.trackArtists = b.trackArtists)
    (h5 : a.albumArtists = b.albumArtists) (h6 : a.scanFound = b.scanFound)
    (h7 : a.libraryRoots = b.libraryRoots) (h8 : a.nextId = b.nextId) : a = b := by
  cases a
  cases b
  simp_all

/-- C1: running scan() a second time over a catalog and filesystem that are
unchanged since the previous scan produces an identical catalog: the second
scan succeeds and returns exactly the first scan's database and cover store
(same ids, same row counts, no duplicate inserts).  The only well-formedness
hypothesis is that the walk lists distinct paths for the audio files, as a
real directory walk does. -/
theorem C1_scan_idempotent (fs : FileSystem) (db0 : DB) (st0 : CoverStore)
    (db1 : DB) (st1 : CoverStore)
    (H2 : (((allFiles fs db0.libraryRoots).filter (fun f => isAudioFile f)).map
      (fun f => f.path)).Nodup)
    (h : scan fs db0 st0 = Except.ok (db1, st1)) :
    scan fs db1 st1 = Except.ok (db1, st1) := by
  unfold scan at h
  cases hc : scanCore fs db0 st0 with
  | none =>
    rw [hc] at h
    exact Except.noConfusion h
  | some pr =>
    rw [hc] at h
    injection h with h2
    have hdb : applyDeletion pr.1 = db1 := congrArg Prod.fst h2
    have hst : pr.2 = st1 := congrArg Prod.snd h2
    obtain ⟨e1, e2, e3⟩ := scanCore_eff fs db0 st0 pr.1 pr.2 (by rw [hc])
    have hlr : db1.libraryRoots = db0.libraryRoots := by
      rw [← hdb]
      exact e3
    have hsf : db1.scanFound = List.foldl insertFoundPath []
        ((walkMsgs db0.tracks (allFiles fs db0.libraryRoots)).map msgPath) := by
      rw [← hdb]
      exact e2
    have hpm1 : pmOf db1.tracks
        = (List.foldl upsertPM (pmOf db0.tracks)
            (newPMs (walkMsgs db0.tracks (allFiles fs db0.libraryRoots)))).filter
          (fun e => (List.foldl insertFoundPath []
            ((walkMsgs db0.tracks (allFiles fs db0.libraryRoots)).map msgPath)).contains e.1)
        := by
      rw [← hdb]
      show pmOf (pr.1.tracks.filter (fun t => pr.1.scanFound.contains t.path)) = _
      rw [pmOf_filter pr.1.tracks (fun p => pr.1.scanFound.contains p), e1, e2]
    have htrk : ∀ t ∈ db1.tracks, db1.scanFound.contains t.path = true := by
      intro t ht
      rw [← hdb] at ht
      have ht2 : t ∈ pr.1.tracks.filter (fun t => pr.1.scanFound.contains t.path) := ht
      have h3 := (List.mem_filter.mp ht2).2
      rw [← hdb]
      exact h3
    have hw : ∀ r ∈ db1.libraryRoots, ∃ ps : List String,
        walkMsgs db1.tracks (filesOfRoot fs r) = ps.map ScanResult.found := by
      intro r hr
      refine ⟨(walkMsgs db0.tracks (filesOfRoot fs r)).map msgPath, ?_⟩
      apply walkMsgs_second db0.tracks (allFiles fs db0.libraryRoots) (filesOfRoot fs r)
        db1.tracks H2 hpm1
      intro f hf
      rw [hlr] at hr
      exact List.mem_flatMap.mpr ⟨r, hr, hf⟩
    obtain ⟨mid2, hrun2, c1t, c2a, c3al, c4ta, c5aa, c6lr, c7ni⟩ :=
      scanRoots_found fs db1.tracks db1.libraryRoots { db1 with scanFound := [] } st1 hw
    have c1t' : mid2.tracks = db1.tracks := c1t
    have c2a' : mid2.artists = db1.artists := c2a
    have c3al' : mid2.albums = db1.albums := c3al
    have c4ta' : mid2.trackArtists = db1.trackArtists := c4ta
    have c5aa' : mid2.albumArtists = db1.albumArtists := c5aa
    have c6lr' : mid2.libraryRoots = db1.libraryRoots := c6lr
    have c7ni' : mid2.nextId = db1.nextId := c7ni
    obtain ⟨g1, g2, g3⟩ := scanRoots_eff fs db1.tracks db1.libraryRoots
      { db1 with scanFound := [] } st1 mid2 st1 hrun2
    have hws : walkMsgs db1.tracks (allFiles fs db1.libraryRoots)
        = ((walkMsgs db0.tracks (allFiles fs db0.libraryRoots)).map msgPath).map
          ScanResult.found := by
      rw [hlr]
      exact walkMsgs_second db0.tracks _ _ db1.tracks H2 hpm1 (fun f hf => hf)
    have hP2 : (walkMsgs db1.tracks (allFiles fs db1.libraryRoots)).map msgPath
        = (walkMsgs db0.tracks (allFiles fs db0.libraryRoots)).map msgPath := by
      rw [hws, List.map_map]
      exact List.map_id _
    have hsf2 : mid2.scanFound = db1.scanFound := by
      rw [g2, hP2, hsf]
    have hrem : mid2.tracks.filter (fun t => !(mid2.scanFound.contains t.path)) = [] := by
      apply List.filter_eq_nil_iff.mpr
      intro t ht
      have ht' : t ∈ db1.tracks := by
        rw [← c1t']
        exact ht
      have hcon := htrk t ht'
      rw [hsf2, hcon]
      simp
    unfold scan
    rw [show scanCore fs db1 st1 = some (mid2, st1) from by unfold scanCore; exact hrun2]
    show Except.ok (applyDeletion mid2, st1) = Except.ok (db1, st1)
    have hfinal : applyDeletion mid2 = db1 := by
      apply dbExt
      · exact c2a'
      · exact c3al'
      · show mid2.tracks.filter (fun t => mid2.scanFound.contains t.path) = db1.tracks
        rw [c1t', hsf2]
        apply List.filter_eq_self.mpr
        exact htrk
      · show mid2.trackArtists.filter
          (fun l => !((mid2.tracks.filter (fun t => !(mid2.scanFound.contains t.path))).any
            (fun t => t.id == l.1))) = db1.trackArtists
        rw [hrem]
        have hid : mid2.trackArtists.filter
            (fun l => !(List.any [] (fun t : TrackRow => t.id == l.1))) = mid2.trackArtists :=
          List.filter_eq_self.mpr (fun a _ => rfl)
        rw [hid]
        exact c4ta'
      · exact c5aa'
      · exact hsf2
      · exact c6lr'
      · exact c7ni'
    rw [hfinal]

def c1file : FsFile :=
  ⟨"/r/a.mp3", "a", some "mp3", 7,
    some ⟨100, some 320, some { title := some "T", artist := some "X", album := some "Al" }⟩⟩

def c1fs : FileSystem := [("r", [c1file])]

def c1db0 : DB := ⟨[], [], [], [], [], [], ["r"], 0⟩

def c1db1 : DB :=
  ⟨[⟨"uuid-0", "X", none, none⟩],
   [⟨"uuid-1", "Al", "uuid-0", none⟩],
   [⟨"uuid-2", "/r/a.mp3", "T", "uuid-0", "uuid-1", 100, none, none, none, none,
     some 320, 0, false, 7⟩],
   [("uuid-2", "uuid-0")],
   [("uuid-1", "uuid-0")],
   ["/r/a.mp3"],
   ["r"],
   3⟩

theorem C1_scan_idempotent_witness :
    ((((allFiles c1fs c1db0.libraryRoots).filter (fun f => isAudioFile f)).map
        (fun f => f.path)).Nodup
      ∧ scan c1fs c1db0 [] = Except.ok (c1db1, [])) ∧
    scan c1fs c1db1 [] = Except.ok (c1db1, []) :=
  ⟨⟨by decide, by rfl⟩,
   C1_scan_idempotent c1fs c1db0 [] c1db1 [] (by decide) (by rfl)⟩

/-! ## C2: the end-of-scan deletion -/

theorem paths_pmOf (l : List TrackRow) :
    (pmOf l).map (fun e => e.1) = l.map (fun t => t.path) := by
  unfold pmOf
  rw [List.map_map]
  rfl

/-- C2 (amended): the deletion step of a completed scan deletes exactly the
track rows whose path is not in the found-set accumulated this run, and no
other step of the scan deletes a track row — the walk and flushes only
update or insert.  Consequently, removing one previously-indexed file from
disk and re-scanning deletes exactly that file's track row, together with
its track_artists join rows, which go away through the schema's ON DELETE
CASCADE; artists, albums, album_artists and every other track row are left
unchanged. -/
theorem C2_rescan_deletes (fs fs2 : FileSystem) (db0 : DB) (st0 : CoverStore)
    (db1 : DB) (st1 : CoverStore) (x : FsFile)
    (H2 : (((allFiles fs db0.libraryRoots).filter (fun f => isAudioFile f)).map
      (fun f => f.path)).Nodup)
    (h : scan fs db0 st0 = Except.ok (db1, st1))
    (hx : x ∈ allFiles fs db0.libraryRoots) (hxa : isAudioFile x = true)
    (hxm : ∃ tr, tr ∈ db1.tracks ∧ tr.path = x.path)
    (hfs2i : ∀ f, f ∈ allFiles fs2 db1.libraryRoots
      → f ∈ allFiles fs db0.libraryRoots ∧ f ≠ x)
    (hfs2ii : ∀ f, f ∈ allFiles fs db0.libraryRoots → f ≠ x
      → f ∈ allFiles fs2 db1.libraryRoots) :
    (∃ mid, scanCore fs db0 st0 = some (mid, st1) ∧
      db1.tracks = mid.tracks.filter (fun t => mid.scanFound.contains t.path) ∧
      (∀ p, (∃ t, t ∈ db0.tracks ∧ t.path = p) → ∃ t, t ∈ mid.tracks ∧ t.path = p)) ∧
    (∃ db2, scan fs2 db1 st1 = Except.ok (db2, st1) ∧
      db2.artists = db1.artists ∧ db2.albums = db1.albums ∧
      db2.albumArtists = db1.albumArtists ∧ db2.libraryRoots = db1.libraryRoots ∧
      db2.nextId = db1.nextId ∧
      db2.tracks = db1.tracks.filter (fun t => !(t.path == x.path)) ∧
      db2.trackArtists = db1.trackArtists.filter
        (fun l => !((db1.tracks.filter (fun t => t.path == x.path)).any
          (fun t => t.id == l.1))) ∧
      (∃ tr, tr ∈ db1.tracks ∧ tr.path = x.path ∧ tr ∉ db2.tracks)) := by
  unfold scan at h
  cases hc : scanCore fs db0 st0 with
  | none =>
    rw [hc] at h
    exact Except.noConfusion h
  | some pr =>
    rw [hc] at h
    injection h with h2
    have hdb : applyDeletion pr.1 = db1 := congrArg Prod.fst h2
    have hst : pr.2 = st1 := congrArg Prod.snd h2
    obtain ⟨e1, e2, e3⟩ := scanCore_eff fs db0 st0 pr.1 pr.2 (by rw [hc])
    have hlr : db1.libraryRoots = db0.libraryRoots := by
      rw [← hdb]
      exact e3
    have hpm1 : pmOf db1.tracks
        = (List.foldl upsertPM (pmOf db0.tracks)
            (newPMs (walkMsgs db0.tracks (allFiles fs db0.libraryRoots)))).filter
          (fun e => (List.foldl insertFoundPath []
            ((walkMsgs db0.tracks (allFiles fs db0.libraryRoots)).map msgPath)).contains e.1)
        := by
      rw [← hdb]
      show pmOf (pr.1.tracks.filter (fun t => pr.1.scanFound.contains t.path)) = _
      rw [pmOf_filter pr.1.tracks (fun p => pr.1.scanFound.contains p), e1, e2]
    have htrkP : ∀ t ∈ db1.tracks,
        t.path ∈ (walkMsgs db0.tracks (allFiles fs db0.libraryRoots)).map msgPath := by
      intro t ht
      rw [← hdb] at ht
      have ht2 : t ∈ pr.1.tracks.filter (fun t => pr.1.scanFound.contains t.path) := ht
      have h3 := (List.mem_filter.mp ht2).2
      rw [e2] at h3
      rcases (foldl_insertFoundPath_mem _ _ _).mp ((contains_iff_mem _ _).mp h3) with hh | hh
      · exact absurd hh (List.not_mem_nil _)
      · exact hh
    constructor
    · refine ⟨pr.1, ?_, ?_, ?_⟩
      · show some pr = some (pr.1, st1)
        rw [← hst]
      · rw [← hdb]
        rfl
      · intro p hp
        obtain ⟨t, ht, htp⟩ := hp
        have hmem0 : p ∈ (pmOf db0.tracks).map (fun e => e.1) := by
          rw [paths_pmOf]
          exact List.mem_map.mpr ⟨t, ht, htp⟩
        have hmem1 : p ∈ (pmOf pr.1.tracks).map (fun e => e.1) := by
          rw [e1, mem_paths_foldl_upsertPM]
          exact Or.inl hmem0
        rw [paths_pmOf] at hmem1
        obtain ⟨t1, ht1, ht1p⟩ := List.mem_map.mp hmem1
        exact ⟨t1, ht1, ht1p⟩
    · have hw2 : ∀ r ∈ db1.libraryRoots, ∃ ps : List String,
          walkMsgs db1.tracks (filesOfRoot fs2 r) = ps.map ScanResult.found := by
        intro r hr
        refine ⟨(walkMsgs db0.tracks (filesOfRoot fs2 r)).map msgPath, ?_⟩
        apply walkMsgs_second db0.tracks (allFiles fs db0.libraryRoots)
          (filesOfRoot fs2 r) db1.tracks H2 hpm1
        intro f hf
        exact (hfs2i f (List.mem_flatMap.mpr ⟨r, hr, hf⟩)).1
      obtain ⟨mid2, hrun2, c1t, c2a, c3al, c4ta, c5aa, c6lr, c7ni⟩ :=
        scanRoots_found fs2 db1.tracks db1.libraryRoots { db1 with scanFound := [] } st1 hw2
      have c1t' : mid2.tracks = db1.tracks := c1t
      have c4ta' : mid2.trackArtists = db1.trackArtists := c4ta
      obtain ⟨g1, g2, g3⟩ := scanRoots_eff fs2 db1.tracks db1.libraryRoots
        { db1 with scanFound := [] } st1 mid2 st1 hrun2
      have hF2 : ∀ t ∈ db1.tracks, mid2.scanFound.contains t.path = !(t.path == x.path) := by
        intro t ht
        by_cases hpx : (t.path == x.path) = true
        · rw [hpx]
          cases hb : mid2.scanFound.contains t.path with
          | false => rfl
          | true =>
            exfalso
            rw [g2] at hb
            rcases (foldl_insertFoundPath_mem _ _ _).mp
              ((contains_iff_mem _ _).mp hb) with hh | hh
            · exact absurd hh (List.not_mem_nil _)
            · obtain ⟨msg2, hm2, hmp2⟩ := List.mem_map.mp hh
              obtain ⟨g, hg, hcg⟩ := (mem_walkMsgs_iff _ _ _).mp hm2
              obtain ⟨hag, hpg⟩ := classify_some _ g _ hcg
              obtain ⟨hgf, hgx⟩ := hfs2i g hg
              have hgpath : g.path = x.path := by
                rw [← hpg, hmp2, eq_of_beq hpx]
              exact hgx (audio_inj _ H2 g x hgf hx hag hxa hgpath)
        · have hpxf : (t.path == x.path) = false := Bool.of_not_eq_true hpx
          rw [hpxf]
          show mid2.scanFound.contains t.path = true
          obtain ⟨msg, hmsgmem, hmp⟩ := List.mem_map.mp (htrkP t ht)
          obtain ⟨g, hg, hcg⟩ := (mem_walkMsgs_iff _ _ _).mp hmsgmem
          obtain ⟨hag, hpg⟩ := classify_some _ g _ hcg
          have hgt : g.path = t.path := by
            rw [← hpg, hmp]
          have hgx : g ≠ x := by
            intro hgeq
            rw [hgeq] at hgt
            apply hpx
            have hteq : t.path = x.path := hgt.symm
            rw [hteq]
            exact beq_self_eq_true x.path
          have hg2 : g ∈ allFiles fs2 db1.libraryRoots := hfs2ii g hg hgx
          have hsecond := classifyFile_second db0.tracks (allFiles fs db0.libraryRoots)
            db1.tracks H2 hpm1 g hg
          rw [hcg] at hsecond
          have hmem2 : ScanResult.found t.path
              ∈ walkMsgs db1.tracks (allFiles fs2 db1.libraryRoots) := by
            apply (mem_walkMsgs_iff _ _ _).mpr
            refine ⟨g, hg2, ?_⟩
            rw [hsecond]
            show some (ScanResult.found (msgPath msg)) = some (ScanResult.found t.path)
            rw [hmp]
          rw [g2]
          apply (contains_iff_mem _ _).mpr
          apply (foldl_insertFoundPath_mem _ _ _).mpr
          exact Or.inr (List.mem_map.mpr ⟨ScanResult.found t.path, hmem2, rfl⟩)
      have hc2 : scanCore fs2 db1 st1 = some (mid2, st1) := by
        unfold scanCore
        exact hrun2
      refine ⟨applyDeletion mid2, ?_, ?_, ?_, ?_, ?_, ?_, ?_, ?_, ?_⟩
      · unfold scan
        rw [hc2]
      · exact (show mid2.artists = db1.artists from c2a)
      · exact (show mid2.albums = db1.albums from c3al)
      · exact (show mid2.albumArtists = db1.albumArtists from c5aa)
      · exact (show mid2.libraryRoots = db1.libraryRoots from c6lr)
      · exact (show mid2.nextId = db1.nextId from c7ni)
      · show mid2.tracks.filter (fun t => mid2.scanFound.contains t.path)
          = db1.tracks.filter (fun t => !(t.path == x.path))
        rw [c1t']
        exact List.filter_congr (fun t ht => hF2 t ht)
      · have hrem2 : mid2.tracks.filter (fun t => !(mid2.scanFound.contains t.path))
            = db1.tracks.filter (fun t => t.path == x.path) := by
          rw [c1t']
          apply List.filter_congr
          intro t ht
          rw [hF2 t ht, Bool.not_not]
        show mid2.trackArtists.filter
          (fun l => !((mid2.tracks.filter (fun t => !(mid2.scanFound.contains t.path))).any
            (fun t => t.id == l.1))) = _
        rw [hrem2, c4ta']
      · obtain ⟨tr, htr, htrp⟩ := hxm
        refine ⟨tr, htr, htrp, ?_⟩
        intro hmem
        have hmem2 : tr ∈ mid2.tracks.filter (fun t => mid2.scanFound.contains t.path) := hmem
        have hcontains := (List.mem_filter.mp hmem2).2
        have hF := hF2 tr htr
        rw [hF] at hcontains
        rw [htrp, beq_self_eq_true] at hcontains
        exact Bool.noConfusion hcontains

def c2file : FsFile :=
  ⟨"/q/b.mp3", "b", some "mp3", 5,
    some ⟨90, none, some { title := some "B", artist := some "Y", album := some "Bl" }⟩⟩

def c2fs : FileSystem := [("q", [c2file])]

def c2fs2 : FileSystem := [("q", [])]

def c2db0 : DB := ⟨[], [], [], [], [], [], ["q"], 0⟩

def c2db1 : DB :=
  ⟨[⟨"uuid-0", "Y", none, none⟩],
   [⟨"uuid-1", "Bl", "uuid-0", none⟩],
   [⟨"uuid-2", "/q/b.mp3", "B", "uuid-0", "uuid-1", 90, none, none, none, none,
     none, 0, false, 5⟩],
   [("uuid-2", "uuid-0")],
   [("uuid-1", "uuid-0")],
   ["/q/b.mp3"],
   ["q"],
   3⟩

def c2db2 : DB :=
  ⟨[⟨"uuid-0", "Y", none, none⟩],
   [⟨"uuid-1", "Bl", "uuid-0", none⟩],
   [], [],
   [("uuid-1", "uuid-0")],
   [],
   ["q"],
   3⟩

/-- C2 counterexample to the unamended claim: a library with one indexed
file is re-scanned after the file is removed from disk.  The track row is
deleted as claimed, but its track_artists row is deleted too (ON DELETE
CASCADE), so the re-scan does not leave every other row unchanged. -/
theorem C2_counterexample :
    scan c2fs c2db0 [] = Except.ok (c2db1, []) ∧
    scan c2fs2 c2db1 [] = Except.ok (c2db2, []) ∧
    c2db2.tracks = [] ∧
    c2db1.trackArtists = [("uuid-2", "uuid-0")] ∧
    c2db2.trackArtists ≠ c2db1.trackArtists :=
  ⟨by rfl, by rfl, by rfl, by rfl, by decide⟩

def c2wfileA : FsFile :=
  ⟨"/r/a.mp3", "a", some "mp3", 3,
    some ⟨60, none, some { title := some "A", artist := some "P", album := some "L" }⟩⟩

def c2wfileB : FsFile :=
  ⟨"/r/b.mp3", "b", some "mp3", 4,
    some ⟨61, none, some { title := some "B", artist := some "Q", album := some "M" }⟩⟩

def c2wfs : FileSystem := [("r", [c2wfileA, c2wfileB])]

def c2wfs2 : FileSystem := [("r", [c2wfileA])]

def c2wdb0 : DB := ⟨[], [], [], [], [], [], ["r"], 0⟩

def c2wrowB : TrackRow :=
  ⟨"uuid-5", "/r/b.mp3", "B", "uuid-2", "uuid-3", 61, none, none, none, none,
    none, 0, false, 4⟩

def c2wdb1 : DB :=
  ⟨[⟨"uuid-0", "P", none, none⟩, ⟨"uuid-2", "Q", none, none⟩],
   [⟨"uuid-1", "L", "uuid-0", none⟩, ⟨"uuid-3", "M", "uuid-2", none⟩],
   [⟨"uuid-4", "/r/a.mp3", "A", "uuid-0", "uuid-1", 60, none, none, none, none,
     none, 0, false, 3⟩,
    c2wrowB],
   [("uuid-4", "uuid-0"), ("uuid-5", "uuid-2")],
   [("uuid-1", "uuid-0"), ("uuid-3", "uuid-2")],
   ["/r/a.mp3", "/r/b.mp3"],
   ["r"],
   6⟩

theorem C2_rescan_deletes_witness :
    ((((allFiles c2wfs c2wdb0.libraryRoots).filter (fun f => isAudioFile f)).map
        (fun f => f.path)).Nodup
      ∧ scan c2wfs c2wdb0 [] = Except.ok (c2wdb1, [])
      ∧ isAudioFile c2wfileB = true) ∧
    ((∃ mid, scanCore c2wfs c2wdb0 [] = some (mid, []) ∧
      c2wdb1.tracks = mid.tracks.filter (fun t => mid.scanFound.contains t.path) ∧
      (∀ p, (∃ t, t ∈ c2wdb0.tracks ∧ t.path = p) → ∃ t, t ∈ mid.tracks ∧ t.path = p)) ∧
    (∃ db2, scan c2wfs2 c2wdb1 [] = Except.ok (db2, []) ∧
      db2.artists = c2wdb1.artists ∧ db2.albums = c2wdb1.albums ∧
      db2.albumArtists = c2wdb1.albumArtists ∧ db2.libraryRoots = c2wdb1.libraryRoots ∧
      db2.nextId = c2wdb1.nextId ∧
      db2.tracks = c2wdb1.tracks.filter (fun t => !(t.path == c2wfileB.path)) ∧
      db2.trackArtists = c2wdb1.trackArtists.filter
        (fun l => !((c2wdb1.tracks.filter (fun t => t.path == c2wfileB.path)).any
          (fun t => t.id == l.1))) ∧
      (∃ tr, tr ∈ c2wdb1.tracks ∧ tr.path = c2wfileB.path ∧ tr ∉ db2.tracks))) :=
  ⟨⟨by decide, by rfl, by decide⟩,
   C2_rescan_deletes c2wfs c2wfs2 c2wdb0 [] c2wdb1 [] c2wfileB
     (by decide) (by rfl) (by decide) (by decide)
     ⟨c2wrowB, by decide, by decide⟩ (by decide) (by decide)⟩

end Aether
